import Mathlib

/-!
Shallow embedding of the BTF decoder in `src/btfparse/btfparse/src/btf.cpp`.

The byte source (`IFileReader`) is an external collaborator of the core and is
modelled from the spec's interface description: a stateful cursor over a binary
blob with seek, offset query, fixed-width unsigned reads (1/2/4 bytes), a
run-time endianness switch, and failure signaling for out-of-range reads.
Bytes are natural numbers reduced modulo 256 (the uint8 value domain).
Everything else is translated directly from `btf.cpp`.
-/

set_option maxHeartbeats 2000000

deriving instance DecidableEq for Except

namespace btfparse

/-- Modelled from the spec: the external byte-source abstraction (`IFileReader`):
a stateful cursor over a binary blob, with an endianness mode. -/
structure FileReader where
  data : List Nat
  pos : Nat := 0
  littleEndian : Bool := true
deriving Repr, DecidableEq

/-- Modelled from the spec: byte-source error codes (unknown, allocation
failure, not-found, I/O error). -/
inductive FileReaderErrorCode where
  | Unknown
  | MemoryAllocationFailure
  | FileNotFound
  | IOError
deriving Repr, DecidableEq

/-- A byte range `(offset, size)` attached to errors
(`BTFErrorInformation::FileRange`). -/
structure FileRange where
  offset : Nat
  size : Nat
deriving Repr, DecidableEq

/-- Modelled from the spec: the byte-source error value
(`FileReaderErrorInformation`): a code plus the failed read operation's
byte range when available. -/
structure FileReaderErrorInformation where
  code : FileReaderErrorCode
  opt_read_operation : Option FileRange := none
deriving Repr, DecidableEq

def FileReader.offset (r : FileReader) : Nat := r.pos

def FileReader.seek (r : FileReader) (off : Nat) : FileReader := { r with pos := off }

def FileReader.setEndianness (r : FileReader) (little : Bool) : FileReader :=
  { r with littleEndian := little }

/-- A stored byte is a uint8 value. -/
def byteVal (b : Nat) : Nat := b % 256

/-- Little-endian assembly of a byte list into an unsigned value. -/
def assembleLE : List Nat → Nat
  | [] => 0
  | b :: bs => byteVal b + 256 * assembleLE bs

/-- Modelled from the spec: a fixed-width unsigned read of `n` bytes at the
cursor, in the reader's current endianness; fails (out-of-range read, with the
operation's byte range) when fewer than `n` bytes remain. -/
def FileReader.readFixed (r : FileReader) (n : Nat) :
    Except FileReaderErrorInformation (Nat × FileReader) :=
  if r.pos + n ≤ r.data.length then
    let bs := (r.data.drop r.pos).take n
    .ok (assembleLE (if r.littleEndian then bs else bs.reverse),
         { r with pos := r.pos + n })
  else
    .error { code := .IOError, opt_read_operation := some ⟨r.pos, n⟩ }

def FileReader.u8 (r : FileReader) : Except FileReaderErrorInformation (Nat × FileReader) :=
  r.readFixed 1

def FileReader.u16 (r : FileReader) : Except FileReaderErrorInformation (Nat × FileReader) :=
  r.readFixed 2

def FileReader.u32 (r : FileReader) : Except FileReaderErrorInformation (Nat × FileReader) :=
  r.readFixed 4

/-- `BTFErrorInformation::Code`: the core's closed error taxonomy. -/
inductive BTFErrorCode where
  | Unknown
  | MemoryAllocationFailure
  | FileNotFound
  | IOError
  | InvalidMagicValue
  | InvalidBTFKind
  | InvalidIntBTFTypeEncoding
  | InvalidPtrBTFTypeEncoding
  | InvalidArrayBTFTypeEncoding
  | InvalidTypedefBTFTypeEncoding
  | InvalidEnumBTFTypeEncoding
  | InvalidFuncProtoBTFTypeEncoding
  | InvalidVolatileBTFTypeEncoding
  | InvalidFwdBTFTypeEncoding
  | InvalidFuncBTFTypeEncoding
  | InvalidStructBTFTypeEncoding
  | InvalidUnionBTFTypeEncoding
deriving Repr, DecidableEq

/-- `BTFError` / `BTFErrorInformation`: code plus optional byte range. -/
structure BTFError where
  code : BTFErrorCode
  opt_file_range : Option FileRange := none
deriving Repr, DecidableEq

/-- `BTF::convertFileReaderError` (btf.cpp:125): maps byte-source failures onto
the core's codes, carrying forward the read operation's byte range. -/
def BTF.convertFileReaderError (e : FileReaderErrorInformation) : BTFError :=
  { code :=
      match e.code with
      | .Unknown => .Unknown
      | .MemoryAllocationFailure => .MemoryAllocationFailure
      | .FileNotFound => .FileNotFound
      | .IOError => .IOError,
    opt_file_range := e.opt_read_operation }

/-- Modelled from the spec: the little-endian magic sentinel from `btf.h`
(not under src/); the value is the BTF magic. -/
def kLittleEndianMagicValue : Nat := 0xEB9F

/-- Modelled from the spec: the big-endian magic sentinel, the same two bytes
swapped. -/
def kBigEndianMagicValue : Nat := 0x9FEB

/-- Modelled from the spec: the fixed 12-byte type header size (`btf.h`). -/
def kBTFTypeHeaderSize : Nat := 12

/-- Modelled from the spec: the Int payload size estimate from `btf.h`
(one 4-byte encoding word). -/
def kIntBTFTypeSize : Nat := 4

/-- Modelled from the spec: the BTF kind codes from `btf.h` (not under src/),
with the numbering of the BTF format. -/
def BTFKind_Int : Nat := 1
def BTFKind_Ptr : Nat := 2
def BTFKind_Array : Nat := 3
def BTFKind_Struct : Nat := 4
def BTFKind_Union : Nat := 5
def BTFKind_Enum : Nat := 6
def BTFKind_Fwd : Nat := 7
def BTFKind_Typedef : Nat := 8
def BTFKind_Volatile : Nat := 9
def BTFKind_Const : Nat := 10
def BTFKind_Func : Nat := 12
def BTFKind_FuncProto : Nat := 13

/-- `BTFHeader`: the fixed file header. -/
structure BTFHeader where
  magic : Nat := 0
  version : Nat := 0
  flags : Nat := 0
  hdr_len : Nat := 0
  type_off : Nat := 0
  type_len : Nat := 0
  str_off : Nat := 0
  str_len : Nat := 0
deriving Repr, DecidableEq

/-- `BTFTypeHeader`: the decoded 12-byte per-type header. -/
structure BTFTypeHeader where
  name_off : Nat := 0
  vlen : Nat := 0
  kind : Nat := 0
  kind_flag : Bool := false
  size_or_type : Nat := 0
deriving Repr, DecidableEq

/-- `static_cast<std::int32_t>` of a 32-bit unsigned value. -/
def toInt32 (n : Nat) : Int :=
  if n % 2 ^ 32 < 2 ^ 31 then (n % 2 ^ 32 : Nat) else (n % 2 ^ 32 : Nat) - 2 ^ 32

/-- `IntBTFType`. -/
structure IntBTFType where
  name : List Nat := []
  is_signed : Bool := false
  is_char : Bool := false
  is_bool : Bool := false
  bits : Nat := 0
  offset : Nat := 0
deriving Repr, DecidableEq

/-- `PtrBTFType`. -/
structure PtrBTFType where
  type : Nat := 0
deriving Repr, DecidableEq

/-- `ConstBTFType`. -/
structure ConstBTFType where
  type : Nat := 0
deriving Repr, DecidableEq

/-- `VolatileBTFType`. -/
structure VolatileBTFType where
  type : Nat := 0
deriving Repr, DecidableEq

/-- `ArrayBTFType`. -/
structure ArrayBTFType where
  type : Nat := 0
  index_type : Nat := 0
  nelems : Nat := 0
deriving Repr, DecidableEq

/-- `TypedefBTFType`. -/
structure TypedefBTFType where
  name : List Nat := []
deriving Repr, DecidableEq

/-- `StructBPFType::Member` / `UnionBPFType::Member` (field layout from the
spec's data model; `btf.h` is not under src/). -/
structure StructMember where
  opt_name : Option (List Nat) := none
  type : Nat := 0
  offset : Nat := 0
deriving Repr, DecidableEq

/-- The payload shared by `StructBPFType` and `UnionBPFType` (optional name,
byte size, member list; field layout from the spec's data model). -/
structure StructUnionPayload where
  opt_name : Option (List Nat) := none
  size : Nat := 0
  member_list : List StructMember := []
deriving Repr, DecidableEq

/-- `EnumBTFType::Value`. -/
structure EnumValue where
  name : List Nat := []
  val : Int := 0
deriving Repr, DecidableEq

/-- `EnumBTFType`. -/
structure EnumBTFType where
  opt_name : Option (List Nat) := none
  value_list : List EnumValue := []
deriving Repr, DecidableEq

/-- `FwdBTFType`. -/
structure FwdBTFType where
  name : List Nat := []
  is_union : Bool := false
deriving Repr, DecidableEq

/-- `FuncBTFType`. -/
structure FuncBTFType where
  name : List Nat := []
  type : Nat := 0
deriving Repr, DecidableEq

/-- `FuncProtoBTFType::Param`. -/
structure FuncProtoParam where
  opt_name : Option (List Nat) := none
  type : Nat := 0
deriving Repr, DecidableEq

/-- `FuncProtoBTFType`. -/
structure FuncProtoBTFType where
  param_list : List FuncProtoParam := []
  variadic : Bool := false
deriving Repr, DecidableEq

/-- `BTFType`: the tagged-variant set of decoded types. -/
inductive BTFType where
  | int : IntBTFType → BTFType
  | ptr : PtrBTFType → BTFType
  | constant : ConstBTFType → BTFType
  | arr : ArrayBTFType → BTFType
  | typedef : TypedefBTFType → BTFType
  | enum : EnumBTFType → BTFType
  | funcProto : FuncProtoBTFType → BTFType
  | volatileT : VolatileBTFType → BTFType
  | structT : StructUnionPayload → BTFType
  | unionT : StructUnionPayload → BTFType
  | fwd : FwdBTFType → BTFType
  | func : FuncBTFType → BTFType
deriving Repr, DecidableEq

theorem FileReader.u8_ok {r : FileReader} {b : Nat} {r' : FileReader}
    (h : r.u8 = .ok (b, r')) :
    r.pos < r.data.length ∧ r' = { r with pos := r.pos + 1 } := by
  unfold FileReader.u8 FileReader.readFixed at h
  split at h
  · next hle =>
    simp only [Except.ok.injEq, Prod.mk.injEq] at h
    exact ⟨by omega, h.2.symm⟩
  · exact absurd h (by simp)

/-- The read-until-NUL loop of `BTF::parseString` (btf.cpp:799): bytes are
accumulated until a 0 byte (exclusive); a failing read aborts. -/
def readCString (r : FileReader) :
    Except FileReaderErrorInformation (List Nat × FileReader) :=
  match h : r.u8 with
  | .error e => .error e
  | .ok (ch, r1) =>
    if ch = 0 then .ok ([], r1)
    else
      match readCString r1 with
      | .error e => .error e
      | .ok (s, r2) => .ok (ch :: s, r2)
termination_by r.data.length - r.pos
decreasing_by
  obtain ⟨h1, h2⟩ := FileReader.u8_ok h
  subst h2
  simp only []
  omega

/-- `BTF::parseString` (btf.cpp:788): saves the cursor, seeks to `offset`,
reads a NUL-terminated byte run, restores the cursor (on both paths), and
returns the text or the translated error. -/
def BTF.parseString (file_reader : FileReader) (offset : Nat) :
    Except BTFError (List Nat) × FileReader :=
  let original_offset := file_reader.offset
  match readCString (file_reader.seek offset) with
  | .ok (buffer, r') => (.ok buffer, r'.seek original_offset)
  | .error e =>
      (.error (BTF.convertFileReaderError e),
       (file_reader.seek offset).seek original_offset)

/-- `BTF::detectEndianness` (btf.cpp:166): seek to 0, force little-endian
reads, read the 2-byte magic; the little-endian sentinel gives `true`, the
byte-swapped sentinel gives `false`, anything else is `InvalidMagicValue`
with no byte range. -/
def BTF.detectEndianness (file_reader : FileReader) :
    Except BTFError (Bool × FileReader) :=
  match ((file_reader.seek 0).setEndianness true).u16 with
  | .error e => .error (BTF.convertFileReaderError e)
  | .ok (magic, r1) =>
    if magic = kLittleEndianMagicValue then .ok (true, r1)
    else if magic = kBigEndianMagicValue then .ok (false, r1)
    else .error { code := .InvalidMagicValue }

/-- `BTF::readBTFHeader` (btf.cpp:194). -/
def BTF.readBTFHeader (file_reader : FileReader) :
    Except BTFError (BTFHeader × FileReader) :=
  match (file_reader.seek 0).u16 with
  | .error e => .error (BTF.convertFileReaderError e)
  | .ok (magic, r1) =>
  match r1.u8 with
  | .error e => .error (BTF.convertFileReaderError e)
  | .ok (version, r2) =>
  match r2.u8 with
  | .error e => .error (BTF.convertFileReaderError e)
  | .ok (flags, r3) =>
  match r3.u32 with
  | .error e => .error (BTF.convertFileReaderError e)
  | .ok (hdr_len, r4) =>
  match r4.u32 with
  | .error e => .error (BTF.convertFileReaderError e)
  | .ok (type_off, r5) =>
  match r5.u32 with
  | .error e => .error (BTF.convertFileReaderError e)
  | .ok (type_len, r6) =>
  match r6.u32 with
  | .error e => .error (BTF.convertFileReaderError e)
  | .ok (str_off, r7) =>
  match r7.u32 with
  | .error e => .error (BTF.convertFileReaderError e)
  | .ok (str_len, r8) =>
    .ok ({ magic := magic, version := version, flags := flags, hdr_len := hdr_len,
           type_off := type_off, type_len := type_len, str_off := str_off,
           str_len := str_len }, r8)

/-- `info & 0xFFFF` (btf.cpp:281). -/
def infoVlen (info : Nat) : Nat := info % 2 ^ 16

/-- `(info & 0x1F000000) >> 24` (btf.cpp:282). -/
def infoKind (info : Nat) : Nat := info / 2 ^ 24 % 2 ^ 5

/-- `(info & 0x80000000) != 0` (btf.cpp:283), for a 32-bit `info` word. -/
def infoKindFlag (info : Nat) : Bool := info / 2 ^ 31 % 2 = 1

/-- `BTF::parseTypeHeader` (btf.cpp:273): pure field extraction of the
12-byte type header, no validation. -/
def BTF.parseTypeHeader (file_reader : FileReader) :
    Except BTFError (BTFTypeHeader × FileReader) :=
  match file_reader.u32 with
  | .error e => .error (BTF.convertFileReaderError e)
  | .ok (name_off, r1) =>
  match r1.u32 with
  | .error e => .error (BTF.convertFileReaderError e)
  | .ok (info, r2) =>
  match r2.u32 with
  | .error e => .error (BTF.convertFileReaderError e)
  | .ok (size_or_type, r3) =>
    .ok ({ name_off := name_off, vlen := infoVlen info, kind := infoKind info,
           kind_flag := infoKindFlag info, size_or_type := size_or_type }, r3)

/-- The byte range attached by every per-kind decoder (btf.cpp:299 and the
analogous two lines of each other decoder): it starts at the offset of the
entry's type header (the cursor at decoder entry sits just past the header)
and always has length `kBTFTypeHeaderSize + kIntBTFTypeSize`. -/
def entryFileRange (file_reader : FileReader) : FileRange :=
  ⟨file_reader.offset - kBTFTypeHeaderSize, kBTFTypeHeaderSize + kIntBTFTypeSize⟩

/-- `BTF::parseIntData` (btf.cpp:294). Note that the name resolution at
btf.cpp:330-334 is not guarded by `name_off != 0`. -/
def BTF.parseIntData (btf_header : BTFHeader) (btf_type_header : BTFTypeHeader)
    (file_reader : FileReader) : Except BTFError (BTFType × FileReader) :=
  let file_range := entryFileRange file_reader
  if btf_type_header.kind_flag = true ∨ btf_type_header.vlen ≠ 0 then
    .error ⟨.InvalidIntBTFTypeEncoding, some file_range⟩
  else if ¬(btf_type_header.size_or_type = 1 ∨ btf_type_header.size_or_type = 2 ∨
            btf_type_header.size_or_type = 4 ∨ btf_type_header.size_or_type = 8 ∨
            btf_type_header.size_or_type = 16) then
    .error ⟨.InvalidIntBTFTypeEncoding, some file_range⟩
  else
    match BTF.parseString file_reader
        (btf_header.hdr_len + btf_header.str_off + btf_type_header.name_off) with
    | (.error e, _) => .error e
    | (.ok nm, r1) =>
      match r1.u32 with
      | .error e => .error (BTF.convertFileReaderError e)
      | .ok (integer_info, r2) =>
        let encoding := integer_info / 2 ^ 24 % 2 ^ 4
        let is_signed := decide (encoding % 2 = 1)
        let is_char := decide (encoding / 2 % 2 = 1)
        let is_bool := decide (encoding / 4 % 2 = 1)
        let encoding_flag_count : Nat :=
          (if is_signed then 1 else 0) + (if is_char then 1 else 0) +
            (if is_bool then 1 else 0)
        if encoding_flag_count > 1 then
          .error ⟨.InvalidIntBTFTypeEncoding, some file_range⟩
        else
          let bits := integer_info % 2 ^ 8
          if bits > 128 ∨ bits > btf_type_header.size_or_type * 8 then
            .error ⟨.InvalidIntBTFTypeEncoding, some file_range⟩
          else
            let off := integer_info / 2 ^ 16 % 2 ^ 8
            if off + bits > btf_type_header.size_or_type * 8 then
              .error ⟨.InvalidIntBTFTypeEncoding, some file_range⟩
            else
              .ok (.int { name := nm, is_signed := is_signed, is_char := is_char,
                          is_bool := is_bool, bits := bits, offset := off }, r2)

/-- `BTF::parsePtrData` (btf.cpp:400). -/
def BTF.parsePtrData (btf_header : BTFHeader) (btf_type_header : BTFTypeHeader)
    (file_reader : FileReader) : Except BTFError (BTFType × FileReader) :=
  let file_range := entryFileRange file_reader
  if btf_type_header.name_off ≠ 0 ∨ btf_type_header.kind_flag = true ∨
      btf_type_header.vlen ≠ 0 then
    .error ⟨.InvalidPtrBTFTypeEncoding, some file_range⟩
  else
    .ok (.ptr { type := btf_type_header.size_or_type }, file_reader)

/-- `BTF::parseConstData` (btf.cpp:426); note it reuses the Ptr encoding
error code (btf.cpp:440). -/
def BTF.parseConstData (btf_header : BTFHeader) (btf_type_header : BTFTypeHeader)
    (file_reader : FileReader) : Except BTFError (BTFType × FileReader) :=
  let file_range := entryFileRange file_reader
  if btf_type_header.name_off ≠ 0 ∨ btf_type_header.kind_flag = true ∨
      btf_type_header.vlen ≠ 0 then
    .error ⟨.InvalidPtrBTFTypeEncoding, some file_range⟩
  else
    .ok (.constant { type := btf_type_header.size_or_type }, file_reader)

/-- `BTF::parseArrayData` (btf.cpp:452). -/
def BTF.parseArrayData (btf_header : BTFHeader) (btf_type_header : BTFTypeHeader)
    (file_reader : FileReader) : Except BTFError (BTFType × FileReader) :=
  let file_range := entryFileRange file_reader
  if btf_type_header.name_off ≠ 0 ∨ btf_type_header.kind_flag = true ∨
      btf_type_header.vlen ≠ 0 ∨ btf_type_header.size_or_type ≠ 0 then
    .error ⟨.InvalidArrayBTFTypeEncoding, some file_range⟩
  else
    match file_reader.u32 with
    | .error e => .error (BTF.convertFileReaderError e)
    | .ok (ty, r1) =>
    match r1.u32 with
    | .error e => .error (BTF.convertFileReaderError e)
    | .ok (index_type, r2) =>
    match r2.u32 with
    | .error e => .error (BTF.convertFileReaderError e)
    | .ok (nelems, r3) =>
      .ok (.arr { type := ty, index_type := index_type, nelems := nelems }, r3)

/-- `BTF::parseTypedefData` (btf.cpp:485). -/
def BTF.parseTypedefData (btf_header : BTFHeader) (btf_type_header : BTFTypeHeader)
    (file_reader : FileReader) : Except BTFError (BTFType × FileReader) :=
  let file_range := entryFileRange file_reader
  if btf_type_header.name_off = 0 ∨ btf_type_header.kind_flag = true ∨
      btf_type_header.vlen ≠ 0 then
    .error ⟨.InvalidTypedefBTFTypeEncoding, some file_range⟩
  else
    match BTF.parseString file_reader
        (btf_header.hdr_len + btf_header.str_off + btf_type_header.name_off) with
    | (.error e, _) => .error e
    | (.ok nm, r1) => .ok (.typedef { name := nm }, r1)

/-- The optional-name resolution step shared by the Enum (btf.cpp:556),
struct/union (btf.cpp:48, 64) and FuncProto parameter (btf.cpp:628)
decoders: resolve via the string resolver only when the offset is
non-zero. -/
def optNameStep (btf_header : BTFHeader) (name_off : Nat) (r : FileReader) :
    Except BTFError (Option (List Nat) × FileReader) :=
  if name_off ≠ 0 then
    match BTF.parseString r (btf_header.hdr_len + btf_header.str_off + name_off) with
    | (.error e, _) => .error e
    | (.ok nm, r1) => .ok (some nm, r1)
  else .ok (none, r)

/-- The enumerator loop of `BTF::parseEnumData` (btf.cpp:568): each record is
a 4-byte name offset (must be non-zero, else the Enum encoding error with the
decoder-entry byte range), a resolved name, and a signed 4-byte value. -/
def enumReadValues (btf_header : BTFHeader) (file_range : FileRange) :
    Nat → FileReader → Except BTFError (List EnumValue × FileReader)
  | 0, r => .ok ([], r)
  | n + 1, r =>
    match r.u32 with
    | .error e => .error (BTF.convertFileReaderError e)
    | .ok (value_name_off, r1) =>
      if value_name_off = 0 then
        .error ⟨.InvalidEnumBTFTypeEncoding, some file_range⟩
      else
        match BTF.parseString r1
            (btf_header.hdr_len + btf_header.str_off + value_name_off) with
        | (.error e, _) => .error e
        | (.ok nm, r2) =>
          match r2.u32 with
          | .error e => .error (BTF.convertFileReaderError e)
          | .ok (v, r3) =>
            match enumReadValues btf_header file_range n r3 with
            | .error e => .error e
            | .ok (rest, r4) => .ok ({ name := nm, val := toInt32 v } :: rest, r4)

/-- `BTF::parseEnumData` (btf.cpp:519). -/
def BTF.parseEnumData (btf_header : BTFHeader) (btf_type_header : BTFTypeHeader)
    (file_reader : FileReader) : Except BTFError (BTFType × FileReader) :=
  let file_range := entryFileRange file_reader
  if btf_type_header.kind_flag = true ∨ btf_type_header.vlen = 0 then
    .error ⟨.InvalidEnumBTFTypeEncoding, some file_range⟩
  else if ¬(btf_type_header.size_or_type = 1 ∨ btf_type_header.size_or_type = 2 ∨
            btf_type_header.size_or_type = 4 ∨ btf_type_header.size_or_type = 8) then
    .error ⟨.InvalidEnumBTFTypeEncoding, some file_range⟩
  else
    match optNameStep btf_header btf_type_header.name_off file_reader with
    | .error e => .error e
    | .ok (opt_name, r1) =>
      match enumReadValues btf_header file_range btf_type_header.vlen r1 with
      | .error e => .error e
      | .ok (value_list, r2) =>
        .ok (.enum { opt_name := opt_name, value_list := value_list }, r2)

/-- The parameter loop of `BTF::parseFuncProtoData` (btf.cpp:624): each record
is a 4-byte name offset (0 means anonymous, otherwise resolved) and a 4-byte
parameter type ID. -/
def funcProtoReadParams (btf_header : BTFHeader) :
    Nat → FileReader → Except BTFError (List FuncProtoParam × FileReader)
  | 0, r => .ok ([], r)
  | n + 1, r =>
    match r.u32 with
    | .error e => .error (BTF.convertFileReaderError e)
    | .ok (param_name_off, r1) =>
      match optNameStep btf_header param_name_off r1 with
      | .error e => .error e
      | .ok (opt_name, r2) =>
        match r2.u32 with
        | .error e => .error (BTF.convertFileReaderError e)
        | .ok (ty, r3) =>
          match funcProtoReadParams btf_header n r3 with
          | .error e => .error e
          | .ok (rest, r4) => .ok ({ opt_name := opt_name, type := ty } :: rest, r4)

/-- `BTF::parseFuncProtoData` (btf.cpp:603), with the trailing-sentinel
handling of btf.cpp:644-651. -/
def BTF.parseFuncProtoData (btf_header : BTFHeader) (btf_type_header : BTFTypeHeader)
    (file_reader : FileReader) : Except BTFError (BTFType × FileReader) :=
  let file_range := entryFileRange file_reader
  if btf_type_header.name_off ≠ 0 ∨ btf_type_header.kind_flag = true then
    .error ⟨.InvalidFuncProtoBTFTypeEncoding, some file_range⟩
  else
    match funcProtoReadParams btf_header btf_type_header.vlen file_reader with
    | .error e => .error e
    | .ok (param_list, r1) =>
      match param_list.getLast? with
      | some last_element =>
        if last_element.opt_name = none ∧ last_element.type = 0 then
          .ok (.funcProto { param_list := param_list.dropLast, variadic := true }, r1)
        else
          .ok (.funcProto { param_list := param_list, variadic := false }, r1)
      | none => .ok (.funcProto { param_list := param_list, variadic := false }, r1)

/-- `BTF::parseVolatileData` (btf.cpp:660). -/
def BTF.parseVolatileData (btf_header : BTFHeader) (btf_type_header : BTFTypeHeader)
    (file_reader : FileReader) : Except BTFError (BTFType × FileReader) :=
  let file_range := entryFileRange file_reader
  if btf_type_header.name_off ≠ 0 ∨ btf_type_header.kind_flag = true ∨
      btf_type_header.vlen ≠ 0 then
    .error ⟨.InvalidVolatileBTFTypeEncoding, some file_range⟩
  else
    .ok (.volatileT { type := btf_type_header.size_or_type }, file_reader)

/-- The member loop of `parseStructOrUnionData` (btf.cpp:60-77): each record
is a 4-byte name offset (resolved when non-zero), a 4-byte member type ID and
a 4-byte member offset. The source stores these into a local `member` record
that is never appended to the output's member list, so only the cursor
advance is observable. -/
def structReadMembers (btf_header : BTFHeader) :
    Nat → FileReader → Except BTFError FileReader
  | 0, r => .ok r
  | n + 1, r =>
    match r.u32 with
    | .error e => .error (BTF.convertFileReaderError e)
    | .ok (member_name_off, r1) =>
      match optNameStep btf_header member_name_off r1 with
      | .error e => .error e
      | .ok (_member_opt_name, r2) =>
        match r2.u32 with
        | .error e => .error (BTF.convertFileReaderError e)
        | .ok (_member_type, r3) =>
          match r3.u32 with
          | .error e => .error (BTF.convertFileReaderError e)
          | .ok (_member_offset, r4) => structReadMembers btf_header n r4

/-- `parseStructOrUnionData` (btf.cpp:33): the logic shared by the Struct and
Union decoders. The loop at btf.cpp:60-77 reads each member record but never
pushes the populated local `member` into `output`, so the returned payload's
`member_list` stays the default empty list. -/
def parseStructOrUnionData (btf_header : BTFHeader) (btf_type_header : BTFTypeHeader)
    (file_reader : FileReader) : Except BTFError (StructUnionPayload × FileReader) :=
  match optNameStep btf_header btf_type_header.name_off file_reader with
  | .error e => .error e
  | .ok (opt_name, r1) =>
    match structReadMembers btf_header btf_type_header.vlen r1 with
    | .error e => .error e
    | .ok r2 =>
      .ok ({ opt_name := opt_name, size := btf_type_header.size_or_type,
             member_list := [] }, r2)

/-- `BTF::parseStructData` (btf.cpp:686). -/
def BTF.parseStructData (btf_header : BTFHeader) (btf_type_header : BTFTypeHeader)
    (file_reader : FileReader) : Except BTFError (BTFType × FileReader) :=
  match parseStructOrUnionData btf_header btf_type_header file_reader with
  | .error e => .error e
  | .ok (output, r1) => .ok (.structT output, r1)

/-- `BTF::parseUnionData` (btf.cpp:702). -/
def BTF.parseUnionData (btf_header : BTFHeader) (btf_type_header : BTFTypeHeader)
    (file_reader : FileReader) : Except BTFError (BTFType × FileReader) :=
  match parseStructOrUnionData btf_header btf_type_header file_reader with
  | .error e => .error e
  | .ok (output, r1) => .ok (.unionT output, r1)

/-- `BTF::parseFwdData` (btf.cpp:718). -/
def BTF.parseFwdData (btf_header : BTFHeader) (btf_type_header : BTFTypeHeader)
    (file_reader : FileReader) : Except BTFError (BTFType × FileReader) :=
  let file_range := entryFileRange file_reader
  if btf_type_header.name_off = 0 ∨ btf_type_header.vlen ≠ 0 ∨
      btf_type_header.size_or_type ≠ 0 then
    .error ⟨.InvalidFwdBTFTypeEncoding, some file_range⟩
  else
    match BTF.parseString file_reader
        (btf_type_header.name_off + btf_header.hdr_len + btf_header.str_off) with
    | (.error e, _) => .error e
    | (.ok nm, r1) =>
      .ok (.fwd { name := nm, is_union := btf_type_header.kind_flag }, r1)

/-- `BTF::parseFuncData` (btf.cpp:753). -/
def BTF.parseFuncData (btf_header : BTFHeader) (btf_type_header : BTFTypeHeader)
    (file_reader : FileReader) : Except BTFError (BTFType × FileReader) :=
  let file_range := entryFileRange file_reader
  if btf_type_header.name_off = 0 ∨ btf_type_header.kind_flag = true ∨
      btf_type_header.vlen ≠ 0 then
    .error ⟨.InvalidFuncBTFTypeEncoding, some file_range⟩
  else
    match BTF.parseString file_reader
        (btf_type_header.name_off + btf_header.hdr_len + btf_header.str_off) with
    | (.error e, _) => .error e
    | (.ok nm, r1) =>
      .ok (.func { name := nm, type := btf_type_header.size_or_type }, r1)

theorem FileReader.readFixed_ok {r : FileReader} {n v : Nat} {r' : FileReader}
    (h : r.readFixed n = .ok (v, r')) :
    r' = { r with pos := r.pos + n } ∧ r.pos + n ≤ r.data.length := by
  simp only [FileReader.readFixed] at h
  split at h
  · next hle =>
    simp only [Except.ok.injEq, Prod.mk.injEq] at h
    exact ⟨h.2.symm, hle⟩
  · exact absurd h (by simp)

theorem FileReader.u32_ok {r : FileReader} {v : Nat} {r' : FileReader}
    (h : r.u32 = .ok (v, r')) :
    r' = { r with pos := r.pos + 4 } ∧ r.pos + 4 ≤ r.data.length :=
  FileReader.readFixed_ok h

theorem FileReader.u8_ok_val {r : FileReader} {b : Nat} {r' : FileReader}
    (h : r.u8 = .ok (b, r')) : b = byteVal ((r.data.drop r.pos).headI) := by
  unfold FileReader.u8 at h
  simp only [FileReader.readFixed] at h
  split at h
  · next hle =>
    simp only [Except.ok.injEq, Prod.mk.injEq] at h
    obtain ⟨d0, t, hd⟩ : ∃ d0 t, r.data.drop r.pos = d0 :: t := by
      cases hdp : r.data.drop r.pos with
      | nil =>
        have := congrArg List.length hdp
        simp [List.length_drop] at this
        omega
      | cons d0 t => exact ⟨d0, t, rfl⟩
    rcases h with ⟨hv, -⟩
    rw [← hv, hd]
    cases r.littleEndian <;> simp [assembleLE]
  · exact absurd h (by simp)

theorem readCString_ok_spec (r : FileReader) :
    ∀ {s : List Nat} {r' : FileReader}, readCString r = .ok (s, r') →
      r'.data = r.data ∧ r'.littleEndian = r.littleEndian ∧
      r'.pos = r.pos + s.length + 1 ∧
      s = ((r.data.drop r.pos).map byteVal).takeWhile (fun b => b != 0) ∧
      0 ∈ (r.data.drop r.pos).map byteVal := by
  induction r using readCString.induct with
  | case1 x e h8 =>
    intro s r' h
    rw [readCString.eq_def] at h
    split at h
    · simp at h
    · next ch r1 heq => rw [h8] at heq; cases heq
  | case2 x r1 h8 =>
    intro s r' h
    rw [readCString.eq_def] at h
    split at h
    · next e heq => rw [h8] at heq; cases heq
    · next ch rr heq =>
      rw [h8] at heq
      injection heq with heq'
      injection heq' with hch hrr
      subst hch; subst hrr
      rw [if_pos rfl] at h
      injection h with h'
      injection h' with hs hr
      subst hs; subst hr
      obtain ⟨hlt, hr1⟩ := FileReader.u8_ok h8
      have hbv := (FileReader.u8_ok_val h8).symm
      obtain ⟨d0, t, hd⟩ : ∃ d0 t, x.data.drop x.pos = d0 :: t := by
        cases hdp : x.data.drop x.pos with
        | nil =>
          have := congrArg List.length hdp
          simp [List.length_drop] at this
          omega
        | cons d0 t => exact ⟨d0, t, rfl⟩
      rw [hd] at hbv
      simp only [List.headI] at hbv
      refine ⟨by rw [hr1], by rw [hr1], by rw [hr1]; simp, ?_, ?_⟩
      · rw [hd]; simp [hbv]
      · rw [hd]; simp [hbv]
  | case3 x ch r1 h8 hch e herr ih =>
    intro s r' h
    rw [readCString.eq_def] at h
    split at h
    · next e0 heq => rw [h8] at heq; cases heq
    · next ch0 rr heq =>
      rw [h8] at heq
      injection heq with heq'
      injection heq' with hch0 hrr
      subst hch0; subst hrr
      rw [if_neg hch] at h
      split at h
      · simp at h
      · next s0 r2 heq2 => rw [herr] at heq2; cases heq2
  | case4 x ch r1 h8 hch s0 r2 hok ih =>
    intro s r' h
    rw [readCString.eq_def] at h
    split at h
    · next e0 heq => rw [h8] at heq; cases heq
    · next ch0 rr heq =>
      rw [h8] at heq
      injection heq with heq'
      injection heq' with hch0 hrr
      subst hch0; subst hrr
      rw [if_neg hch] at h
      split at h
      · next e0 heq2 => rw [hok] at heq2; cases heq2
      · next s1 r3 heq2 =>
        rw [hok] at heq2
        injection heq2 with heq2'
        injection heq2' with hs1 hr3
        subst hs1; subst hr3
        simp only [Except.ok.injEq, Prod.mk.injEq] at h
        obtain ⟨hs, hr⟩ := h
        subst hr; subst hs
        obtain ⟨hd1, hle1, hp1, hs1, hc1⟩ := ih hok
        obtain ⟨hlt, hr1⟩ := FileReader.u8_ok h8
        have hbv := (FileReader.u8_ok_val h8).symm
        obtain ⟨d0, t, hd⟩ : ∃ d0 t, x.data.drop x.pos = d0 :: t := by
          cases hdp : x.data.drop x.pos with
          | nil =>
            have := congrArg List.length hdp
            simp [List.length_drop] at this
            omega
          | cons d0 t => exact ⟨d0, t, rfl⟩
        rw [hd] at hbv
        simp only [List.headI] at hbv
        have ht : t = x.data.drop (x.pos + 1) := by
          have := congrArg List.tail hd
          simpa [List.tail_drop] using this.symm
        have hdata1 : r1.data = x.data := by rw [hr1]
        have hpos1 : r1.pos = x.pos + 1 := by rw [hr1]
        rw [hdata1, hpos1] at hs1 hc1
        refine ⟨by rw [hd1, hdata1], by rw [hle1, hr1], ?_, ?_, ?_⟩
        · rw [hp1, hpos1]; simp; omega
        · rw [hd]
          simp only [List.map_cons, hbv, List.takeWhile_cons]
          have : (ch != 0) = true := by simpa using hch
          rw [this]
          simp only [if_true, ← ht] at hs1 ⊢
          rw [ht] at hs1
          rw [hs1, ht]
        · rw [hd]
          simp only [List.map_cons, hbv, List.mem_cons]
          right
          rw [ht]
          exact hc1

theorem readCString_error_spec (r : FileReader) :
    ∀ {e : FileReaderErrorInformation}, readCString r = .error e →
      ¬(0 ∈ (r.data.drop r.pos).map byteVal) := by
  induction r using readCString.induct with
  | case1 x e0 h8 =>
    intro e h
    have : x.data.length ≤ x.pos := by
      unfold FileReader.u8 at h8
      simp only [FileReader.readFixed] at h8
      split at h8
      · exact absurd h8 (by simp)
      · next hle => omega
    rw [List.drop_eq_nil_of_le this]
    simp
  | case2 x r1 h8 =>
    intro e h
    rw [readCString.eq_def] at h
    split at h
    · next e0 heq => rw [h8] at heq; cases heq
    · next ch rr heq =>
      rw [h8] at heq
      injection heq with heq'
      injection heq' with hch hrr
      subst hch; subst hrr
      simp at h
  | case3 x ch r1 h8 hch e0 herr ih =>
    intro e h
    obtain ⟨hlt, hr1⟩ := FileReader.u8_ok h8
    have hbv := (FileReader.u8_ok_val h8).symm
    obtain ⟨d0, t, hd⟩ : ∃ d0 t, x.data.drop x.pos = d0 :: t := by
      cases hdp : x.data.drop x.pos with
      | nil =>
        have := congrArg List.length hdp
        simp [List.length_drop] at this
        omega
      | cons d0 t => exact ⟨d0, t, rfl⟩
    rw [hd] at hbv
    simp only [List.headI] at hbv
    have ht : t = x.data.drop (x.pos + 1) := by
      have := congrArg List.tail hd
      simpa [List.tail_drop] using this.symm
    have hc1 := ih herr
    rw [hr1] at hc1
    simp only at hc1
    rw [hd]
    simp only [List.map_cons, hbv, List.mem_cons]
    push_neg
    refine ⟨fun hz => hch hz.symm, ?_⟩
    rw [ht]
    exact hc1
  | case4 x ch r1 h8 hch s0 r2 hok ih =>
    intro e h
    rw [readCString.eq_def] at h
    split at h
    · next e0 heq => rw [h8] at heq; cases heq
    · next ch0 rr heq =>
      rw [h8] at heq
      injection heq with heq'
      injection heq' with hch0 hrr
      subst hch0; subst hrr
      rw [if_neg hch] at h
      split at h
      · next e0 heq2 => rw [hok] at heq2; cases heq2
      · next s1 r3 heq2 => rw [hok] at heq2; injection heq2; simp at h

theorem BTF.parseString_snd (r : FileReader) (off : Nat) :
    (BTF.parseString r off).2 = r := by
  unfold BTF.parseString
  cases h : readCString (r.seek off) with
  | ok p =>
    obtain ⟨s, r'⟩ := p
    obtain ⟨hd, hle, -, -, -⟩ := readCString_ok_spec _ h
    simp only [FileReader.seek] at hd hle
    obtain ⟨d, p0, le⟩ := r
    simp [FileReader.seek, FileReader.offset, hd, hle]
  | error e =>
    obtain ⟨d, p0, le⟩ := r
    rfl

theorem optNameStep_ok {bh : BTFHeader} {noff : Nat} {r : FileReader}
    {onm : Option (List Nat)} {r' : FileReader}
    (h : optNameStep bh noff r = .ok (onm, r')) : r' = r := by
  unfold optNameStep at h
  split at h
  · split at h
    · simp at h
    · next nm rr heq =>
      simp only [Except.ok.injEq, Prod.mk.injEq] at h
      have hs : rr = r := by
        have := BTF.parseString_snd r (bh.hdr_len + bh.str_off + noff)
        rw [heq] at this
        exact this
      rw [← h.2, hs]
  · simp only [Except.ok.injEq, Prod.mk.injEq] at h
    exact h.2.symm

theorem BTF.parseTypeHeader_ok {r : FileReader} {th : BTFTypeHeader} {r' : FileReader}
    (h : BTF.parseTypeHeader r = .ok (th, r')) :
    r' = { r with pos := r.pos + 12 } := by
  unfold BTF.parseTypeHeader at h
  split at h
  · simp at h
  · next name_off r1 h1 =>
    split at h
    · simp at h
    · next info r2 h2 =>
      split at h
      · simp at h
      · next size_or_type r3 h3 =>
        simp only [Except.ok.injEq, Prod.mk.injEq] at h
        obtain ⟨e1, -⟩ := FileReader.u32_ok h1
        obtain ⟨e2, -⟩ := FileReader.u32_ok h2
        obtain ⟨e3, -⟩ := FileReader.u32_ok h3
        rw [← h.2, e3, e2, e1]

theorem enumReadValues_ok_pos {bh : BTFHeader} {fr : FileRange} :
    ∀ {n : Nat} {r : FileReader} {vs : List EnumValue} {r' : FileReader},
      enumReadValues bh fr n r = .ok (vs, r') →
      r' = { r with pos := r.pos + 8 * n } := by
  intro n
  induction n with
  | zero =>
    intro r vs r' h
    simp only [enumReadValues, Except.ok.injEq, Prod.mk.injEq] at h
    rw [← h.2]; simp
  | succ n ih =>
    intro r vs r' h
    simp only [enumReadValues] at h
    split at h
    · simp at h
    · next value_name_off r1 heq1 =>
      obtain ⟨hr1, -⟩ := FileReader.u32_ok heq1
      split at h
      · simp at h
      · split at h
        · simp at h
        · next nm r2 heq2 =>
          have hs : r2 = r1 := by
            have := BTF.parseString_snd r1
              (bh.hdr_len + bh.str_off + value_name_off)
            rw [heq2] at this
            exact this
          split at h
          · simp at h
          · next v r3 heq3 =>
            obtain ⟨hr3, -⟩ := FileReader.u32_ok heq3
            split at h
            · simp at h
            · next rest r4 heq4 =>
              simp only [Except.ok.injEq, Prod.mk.injEq] at h
              have h5 := ih heq4
              rw [← h.2, h5, hr3, hs, hr1]
              simp only [FileReader.mk.injEq]
              refine ⟨trivial, by omega, trivial⟩

theorem funcProtoReadParams_ok_pos {bh : BTFHeader} :
    ∀ {n : Nat} {r : FileReader} {ps : List FuncProtoParam} {r' : FileReader},
      funcProtoReadParams bh n r = .ok (ps, r') →
      r' = { r with pos := r.pos + 8 * n } := by
  intro n
  induction n with
  | zero =>
    intro r ps r' h
    simp only [funcProtoReadParams, Except.ok.injEq, Prod.mk.injEq] at h
    rw [← h.2]; simp
  | succ n ih =>
    intro r ps r' h
    simp only [funcProtoReadParams] at h
    split at h
    · simp at h
    · next param_name_off r1 heq1 =>
      obtain ⟨hr1, -⟩ := FileReader.u32_ok heq1
      split at h
      · simp at h
      · next onm r2 heq2 =>
        have hs := optNameStep_ok heq2
        split at h
        · simp at h
        · next ty r3 heq3 =>
          obtain ⟨hr3, -⟩ := FileReader.u32_ok heq3
          split at h
          · simp at h
          · next rest r4 heq4 =>
            simp only [Except.ok.injEq, Prod.mk.injEq] at h
            have h5 := ih heq4
            rw [← h.2, h5, hr3, hs, hr1]
            simp only [FileReader.mk.injEq]
            refine ⟨trivial, by omega, trivial⟩

theorem structReadMembers_ok_pos {bh : BTFHeader} :
    ∀ {n : Nat} {r : FileReader} {r' : FileReader},
      structReadMembers bh n r = .ok r' →
      r' = { r with pos := r.pos + 12 * n } := by
  intro n
  induction n with
  | zero =>
    intro r r' h
    simp only [structReadMembers, Except.ok.injEq] at h
    rw [← h]; simp
  | succ n ih =>
    intro r r' h
    simp only [structReadMembers] at h
    split at h
    · simp at h
    · next member_name_off r1 heq1 =>
      obtain ⟨hr1, -⟩ := FileReader.u32_ok heq1
      split at h
      · simp at h
      · next onm r2 heq2 =>
        have hs := optNameStep_ok heq2
        split at h
        · simp at h
        · next mty r3 heq3 =>
          obtain ⟨hr3, -⟩ := FileReader.u32_ok heq3
          split at h
          · simp at h
          · next moff r4 heq4 =>
            obtain ⟨hr4, -⟩ := FileReader.u32_ok heq4
            have h5 := ih h
            rw [h5, hr4, hr3, hs, hr1]
            simp only [FileReader.mk.injEq]
            refine ⟨trivial, by omega, trivial⟩

/-- `BTFTypeParser`: the signature of a per-kind decoder. -/
def BTFTypeParser :=
  BTFHeader → BTFTypeHeader → FileReader → Except BTFError (BTFType × FileReader)

/-- `kBTFParserMap` (btf.cpp:17): the kind-code → decoder dispatch table. -/
def kBTFParserMap (kind : Nat) : Option BTFTypeParser :=
  if kind = BTFKind_Int then some BTF.parseIntData
  else if kind = BTFKind_Ptr then some BTF.parsePtrData
  else if kind = BTFKind_Const then some BTF.parseConstData
  else if kind = BTFKind_Array then some BTF.parseArrayData
  else if kind = BTFKind_Typedef then some BTF.parseTypedefData
  else if kind = BTFKind_Enum then some BTF.parseEnumData
  else if kind = BTFKind_FuncProto then some BTF.parseFuncProtoData
  else if kind = BTFKind_Volatile then some BTF.parseVolatileData
  else if kind = BTFKind_Struct then some BTF.parseStructData
  else if kind = BTFKind_Union then some BTF.parseUnionData
  else if kind = BTFKind_Fwd then some BTF.parseFwdData
  else if kind = BTFKind_Func then some BTF.parseFuncData
  else none

theorem parseIntData_mono {bh : BTFHeader} {th : BTFTypeHeader} {r : FileReader}
    {t : BTFType} {r' : FileReader}
    (h : BTF.parseIntData bh th r = .ok (t, r')) : r.pos ≤ r'.pos := by
  simp only [BTF.parseIntData] at h
  split at h
  · simp at h
  · split at h
    · simp at h
    · split at h
      · simp at h
      · next nm r1 heq =>
        have hr1 : r1 = r := by
          have := BTF.parseString_snd r (bh.hdr_len + bh.str_off + th.name_off)
          rw [heq] at this; exact this
        split at h
        · simp at h
        · next ii r2 heq2 =>
          obtain ⟨hr2, -⟩ := FileReader.u32_ok heq2
          repeat' split at h
          all_goals first
            | (simp only [Except.ok.injEq, Prod.mk.injEq] at h
               rw [← h.2, hr2, hr1]
               simp)
            | simp at h
            | omega

theorem parsePtrData_mono {bh : BTFHeader} {th : BTFTypeHeader} {r : FileReader}
    {t : BTFType} {r' : FileReader}
    (h : BTF.parsePtrData bh th r = .ok (t, r')) : r.pos ≤ r'.pos := by
  simp only [BTF.parsePtrData] at h
  split at h
  · simp at h
  · simp only [Except.ok.injEq, Prod.mk.injEq] at h
    rw [← h.2]

theorem parseConstData_mono {bh : BTFHeader} {th : BTFTypeHeader} {r : FileReader}
    {t : BTFType} {r' : FileReader}
    (h : BTF.parseConstData bh th r = .ok (t, r')) : r.pos ≤ r'.pos := by
  simp only [BTF.parseConstData] at h
  split at h
  · simp at h
  · simp only [Except.ok.injEq, Prod.mk.injEq] at h
    rw [← h.2]

theorem parseVolatileData_mono {bh : BTFHeader} {th : BTFTypeHeader} {r : FileReader}
    {t : BTFType} {r' : FileReader}
    (h : BTF.parseVolatileData bh th r = .ok (t, r')) : r.pos ≤ r'.pos := by
  simp only [BTF.parseVolatileData] at h
  split at h
  · simp at h
  · simp only [Except.ok.injEq, Prod.mk.injEq] at h
    rw [← h.2]

theorem parseArrayData_mono {bh : BTFHeader} {th : BTFTypeHeader} {r : FileReader}
    {t : BTFType} {r' : FileReader}
    (h : BTF.parseArrayData bh th r = .ok (t, r')) : r.pos ≤ r'.pos := by
  simp only [BTF.parseArrayData] at h
  split at h
  · simp at h
  · split at h
    · simp at h
    · next ty r1 h1 =>
      split at h
      · simp at h
      · next ity r2 h2 =>
        split at h
        · simp at h
        · next ne r3 h3 =>
          obtain ⟨e1, -⟩ := FileReader.u32_ok h1
          obtain ⟨e2, -⟩ := FileReader.u32_ok h2
          obtain ⟨e3, -⟩ := FileReader.u32_ok h3
          simp only [Except.ok.injEq, Prod.mk.injEq] at h
          rw [← h.2, e3, e2, e1]
          simp
          omega

theorem parseTypedefData_mono {bh : BTFHeader} {th : BTFTypeHeader} {r : FileReader}
    {t : BTFType} {r' : FileReader}
    (h : BTF.parseTypedefData bh th r = .ok (t, r')) : r.pos ≤ r'.pos := by
  simp only [BTF.parseTypedefData] at h
  split at h
  · simp at h
  · split at h
    · simp at h
    · next nm r1 heq =>
      have hr1 : r1 = r := by
        have := BTF.parseString_snd r (bh.hdr_len + bh.str_off + th.name_off)
        rw [heq] at this; exact this
      simp only [Except.ok.injEq, Prod.mk.injEq] at h
      rw [← h.2, hr1]

theorem parseEnumData_mono {bh : BTFHeader} {th : BTFTypeHeader} {r : FileReader}
    {t : BTFType} {r' : FileReader}
    (h : BTF.parseEnumData bh th r = .ok (t, r')) : r.pos ≤ r'.pos := by
  simp only [BTF.parseEnumData] at h
  split at h
  · simp at h
  · split at h
    · simp at h
    · split at h
      · simp at h
      · next onm r1 heq =>
        have hr1 := optNameStep_ok heq
        split at h
        · simp at h
        · next vs r2 heq2 =>
          have hr2 := enumReadValues_ok_pos heq2
          simp only [Except.ok.injEq, Prod.mk.injEq] at h
          rw [← h.2, hr2, hr1]
          simp

theorem parseFuncProtoData_mono {bh : BTFHeader} {th : BTFTypeHeader} {r : FileReader}
    {t : BTFType} {r' : FileReader}
    (h : BTF.parseFuncProtoData bh th r = .ok (t, r')) : r.pos ≤ r'.pos := by
  simp only [BTF.parseFuncProtoData] at h
  split at h
  · simp at h
  · split at h
    · simp at h
    · next ps r1 heq =>
      have hr1 := funcProtoReadParams_ok_pos heq
      split at h
      · split at h <;>
          (simp only [Except.ok.injEq, Prod.mk.injEq] at h; rw [← h.2, hr1]; simp)
      · simp only [Except.ok.injEq, Prod.mk.injEq] at h
        rw [← h.2, hr1]
        simp

theorem parseStructOrUnionData_mono {bh : BTFHeader} {th : BTFTypeHeader}
    {r : FileReader} {p : StructUnionPayload} {r' : FileReader}
    (h : parseStructOrUnionData bh th r = .ok (p, r')) : r.pos ≤ r'.pos := by
  simp only [parseStructOrUnionData] at h
  split at h
  · simp at h
  · next onm r1 heq =>
    have hr1 := optNameStep_ok heq
    split at h
    · simp at h
    · next r2 heq2 =>
      have hr2 := structReadMembers_ok_pos heq2
      simp only [Except.ok.injEq, Prod.mk.injEq] at h
      rw [← h.2, hr2, hr1]
      simp

theorem parseStructData_mono {bh : BTFHeader} {th : BTFTypeHeader} {r : FileReader}
    {t : BTFType} {r' : FileReader}
    (h : BTF.parseStructData bh th r = .ok (t, r')) : r.pos ≤ r'.pos := by
  simp only [BTF.parseStructData] at h
  split at h
  · simp at h
  · next output r1 heq =>
    simp only [Except.ok.injEq, Prod.mk.injEq] at h
    rw [← h.2]
    exact parseStructOrUnionData_mono heq

theorem parseUnionData_mono {bh : BTFHeader} {th : BTFTypeHeader} {r : FileReader}
    {t : BTFType} {r' : FileReader}
    (h : BTF.parseUnionData bh th r = .ok (t, r')) : r.pos ≤ r'.pos := by
  simp only [BTF.parseUnionData] at h
  split at h
  · simp at h
  · next output r1 heq =>
    simp only [Except.ok.injEq, Prod.mk.injEq] at h
    rw [← h.2]
    exact parseStructOrUnionData_mono heq

theorem parseFwdData_mono {bh : BTFHeader} {th : BTFTypeHeader} {r : FileReader}
    {t : BTFType} {r' : FileReader}
    (h : BTF.parseFwdData bh th r = .ok (t, r')) : r.pos ≤ r'.pos := by
  simp only [BTF.parseFwdData] at h
  split at h
  · simp at h
  · split at h
    · simp at h
    · next nm r1 heq =>
      have hr1 : r1 = r := by
        have := BTF.parseString_snd r (th.name_off + bh.hdr_len + bh.str_off)
        rw [heq] at this; exact this
      simp only [Except.ok.injEq, Prod.mk.injEq] at h
      rw [← h.2, hr1]

theorem parseFuncData_mono {bh : BTFHeader} {th : BTFTypeHeader} {r : FileReader}
    {t : BTFType} {r' : FileReader}
    (h : BTF.parseFuncData bh th r = .ok (t, r')) : r.pos ≤ r'.pos := by
  simp only [BTF.parseFuncData] at h
  split at h
  · simp at h
  · split at h
    · simp at h
    · next nm r1 heq =>
      have hr1 : r1 = r := by
        have := BTF.parseString_snd r (th.name_off + bh.hdr_len + bh.str_off)
        rw [heq] at this; exact this
      simp only [Except.ok.injEq, Prod.mk.injEq] at h
      rw [← h.2, hr1]

theorem kBTFParserMap_mono {k : Nat} {p : BTFTypeParser}
    (hm : kBTFParserMap k = some p) {bh : BTFHeader} {th : BTFTypeHeader}
    {r : FileReader} {t : BTFType} {r' : FileReader}
    (h : p bh th r = .ok (t, r')) : r.pos ≤ r'.pos := by
  unfold kBTFParserMap at hm
  split_ifs at hm <;> simp only [Option.some.injEq] at hm
  · subst hm; exact parseIntData_mono h
  · subst hm; exact parsePtrData_mono h
  · subst hm; exact parseConstData_mono h
  · subst hm; exact parseArrayData_mono h
  · subst hm; exact parseTypedefData_mono h
  · subst hm; exact parseEnumData_mono h
  · subst hm; exact parseFuncProtoData_mono h
  · subst hm; exact parseVolatileData_mono h
  · subst hm; exact parseStructData_mono h
  · subst hm; exact parseUnionData_mono h
  · subst hm; exact parseFwdData_mono h
  · subst hm; exact parseFuncData_mono h

/-- The entry loop of `BTF::parseTypeSection` (btf.cpp:229-264): while the
cursor is before the section end, decode a type header, look the kind up in
the dispatch table (failing with `InvalidBTFKind` and range
`(entry offset, 12)` when absent), run the decoder and append its result. -/
def parseTypeSectionLoop (btf_header : BTFHeader) (type_section_end_offset : Nat)
    (file_reader : FileReader) :
    Except BTFError (List BTFType × FileReader) :=
  if file_reader.offset ≥ type_section_end_offset then .ok ([], file_reader)
  else
    match hh : BTF.parseTypeHeader file_reader with
    | .error e => .error e
    | .ok (btf_type_header, r1) =>
      match hm : kBTFParserMap btf_type_header.kind with
      | none =>
          .error ⟨.InvalidBTFKind, some ⟨file_reader.offset, kBTFTypeHeaderSize⟩⟩
      | some parser =>
        match hp : parser btf_header btf_type_header r1 with
        | .error e => .error e
        | .ok (btf_type, r2) =>
          match parseTypeSectionLoop btf_header type_section_end_offset r2 with
          | .error e => .error e
          | .ok (rest, r3) => .ok (btf_type :: rest, r3)
termination_by type_section_end_offset - file_reader.pos
decreasing_by
  have e1 := BTF.parseTypeHeader_ok hh
  have e2 := kBTFParserMap_mono hm hp
  rw [e1] at e2
  simp only [FileReader.offset] at *
  omega

/-- `BTF::parseTypeSection` (btf.cpp:216): compute the type section bounds
from the header, seek to the start, and run the entry loop. -/
def BTF.parseTypeSection (btf_header : BTFHeader) (file_reader : FileReader) :
    Except BTFError (List BTFType × FileReader) :=
  let type_section_start_offset := btf_header.hdr_len + btf_header.type_off
  let type_section_end_offset := type_section_start_offset + btf_header.type_len
  parseTypeSectionLoop btf_header type_section_end_offset
    (file_reader.seek type_section_start_offset)

/-- The NUL-terminated byte string stored at absolute offset `off` of the
data: present exactly when a 0 byte follows, and equal to the uint8 byte run
before the first 0 byte. Reference expression for the string resolver. -/
def cstringAt (data : List Nat) (off : Nat) : Option (List Nat) :=
  if 0 ∈ (data.drop off).map byteVal then
    some (((data.drop off).map byteVal).takeWhile (fun b => b != 0))
  else none

/-- The 4-byte unsigned value stored at absolute position `p` of the byte
source, in the source's endianness, ignoring the cursor. Reference
expression for payload characterizations. -/
def readU32At (r : FileReader) (p : Nat) : Option Nat :=
  match FileReader.u32 { r with pos := p } with
  | .ok (v, _) => some v
  | .error _ => none

theorem parseString_ok_iff (r : FileReader) (off : Nat) (s : List Nat) :
    (BTF.parseString r off).1 = .ok s ↔ cstringAt r.data off = some s := by
  unfold BTF.parseString
  cases h : readCString (r.seek off) with
  | ok p =>
    obtain ⟨s0, r0⟩ := p
    obtain ⟨-, -, -, hs0, hc0⟩ := readCString_ok_spec _ h
    simp only [FileReader.seek] at hs0 hc0
    simp only [cstringAt, if_pos hc0, Option.some.injEq, Except.ok.injEq]
    constructor
    · intro hz; rw [← hz, hs0]
    · intro hz; rw [hs0, hz]
  | error e =>
    have hc := readCString_error_spec _ h
    simp only [FileReader.seek] at hc
    simp only [cstringAt, if_neg hc]
    simp

/-- C8: on every call, the string resolver leaves the byte-source cursor
where it found it — on the success path and on the failure path alike — and
on success the returned text is the uint8 byte run from the given absolute
offset up to, but excluding, the first 0 byte. -/
theorem parseString_frame_and_content (r : FileReader) (offset : Nat) :
    ((BTF.parseString r offset).2).pos = r.pos ∧
    ∀ s, (BTF.parseString r offset).1 = .ok s →
      s = ((r.data.drop offset).map byteVal).takeWhile (fun b => b != 0) := by
  constructor
  · rw [BTF.parseString_snd]
  · intro s hs
    rw [parseString_ok_iff] at hs
    unfold cstringAt at hs
    split at hs
    · exact (Option.some.inj hs).symm
    · cases hs

theorem parseString_frame_and_content_witness :
    ((BTF.parseString ⟨[102, 111, 111, 0], 9, true⟩ 0).2).pos = 9 ∧
    [102, 111, 111] =
      ((([102, 111, 111, 0] : List Nat).drop 0).map byteVal).takeWhile
        (fun b => b != 0) := by
  refine ⟨(parseString_frame_and_content ⟨[102, 111, 111, 0], 9, true⟩ 0).1, ?_⟩
  exact (parseString_frame_and_content ⟨[102, 111, 111, 0], 9, true⟩ 0).2
    [102, 111, 111]
    (by simp [BTF.parseString, readCString, FileReader.u8, FileReader.readFixed,
              FileReader.seek, byteVal, assembleLE])

/-- C10: type-header decoding of the packed `info` word depends only on bits
0-15 (`vlen`), 24-28 (`kind`) and 31 (`kind_flag`): two 32-bit info words
agreeing on those bit positions extract to the same field values, so the
decoded type headers are identical. -/
theorem typeHeaderInfoBits (i1 i2 : Nat) (h1 : i1 < 2 ^ 32) (h2 : i2 < 2 ^ 32)
    (hagree : ∀ j, j < 32 → (j < 16 ∨ (24 ≤ j ∧ j ≤ 28) ∨ j = 31) →
      i1.testBit j = i2.testBit j) :
    infoVlen i1 = infoVlen i2 ∧ infoKind i1 = infoKind i2 ∧
    infoKindFlag i1 = infoKindFlag i2 ∧
    ∀ name_off size_or_type : Nat,
      (⟨name_off, infoVlen i1, infoKind i1, infoKindFlag i1, size_or_type⟩ :
        BTFTypeHeader) =
      ⟨name_off, infoVlen i2, infoKind i2, infoKindFlag i2, size_or_type⟩ := by
  have hvlen : infoVlen i1 = infoVlen i2 := by
    unfold infoVlen
    apply Nat.eq_of_testBit_eq
    intro j
    rw [Nat.testBit_mod_two_pow, Nat.testBit_mod_two_pow]
    by_cases hj : j < 16
    · rw [hagree j (by omega) (Or.inl hj)]
    · simp [hj]
  have hkind : infoKind i1 = infoKind i2 := by
    unfold infoKind
    apply Nat.eq_of_testBit_eq
    intro j
    rw [Nat.testBit_mod_two_pow, Nat.testBit_mod_two_pow]
    by_cases hj : j < 5
    · rw [← Nat.shiftRight_eq_div_pow, ← Nat.shiftRight_eq_div_pow,
          Nat.testBit_shiftRight, Nat.testBit_shiftRight]
      rw [hagree (24 + j) (by omega) (Or.inr (Or.inl (by omega)))]
    · simp [hj]
  have hflag : infoKindFlag i1 = infoKindFlag i2 := by
    unfold infoKindFlag
    have hb := hagree 31 (by omega) (Or.inr (Or.inr rfl))
    rw [Nat.testBit_to_div_mod, Nat.testBit_to_div_mod] at hb
    simp only [decide_eq_decide] at hb
    simp [hb]
  exact ⟨hvlen, hkind, hflag, fun noff sot => by rw [hvlen, hkind, hflag]⟩

theorem typeHeaderInfoBits_witness :
    infoVlen 0x02AB0005 = infoVlen 0x02000005 ∧
    infoKind 0x02AB0005 = infoKind 0x02000005 ∧
    infoKindFlag 0x02AB0005 = infoKindFlag 0x02000005 ∧
    ∀ name_off size_or_type : Nat,
      (⟨name_off, infoVlen 0x02AB0005, infoKind 0x02AB0005,
        infoKindFlag 0x02AB0005, size_or_type⟩ : BTFTypeHeader) =
      ⟨name_off, infoVlen 0x02000005, infoKind 0x02000005,
        infoKindFlag 0x02000005, size_or_type⟩ :=
  typeHeaderInfoBits 0x02AB0005 0x02000005 (by decide) (by decide)
    (by decide)

/-- C9: endianness detection reads the 2-byte magic at offset 0 in
little-endian mode; the little-endian sentinel yields `little_endian = true`,
the byte-swapped sentinel yields `false`, and any other 2-byte value fails
with `InvalidMagicValue` carrying no byte range. The big-endian sentinel is
the little-endian sentinel with its two bytes swapped. -/
theorem detectEndianness_spec (r : FileReader) (b0 b1 : Nat)
    (h0 : r.data[0]? = some b0) (h1 : r.data[1]? = some b1) :
    (byteVal b0 + 256 * byteVal b1 = kLittleEndianMagicValue →
      BTF.detectEndianness r = .ok (true, ⟨r.data, 2, true⟩)) ∧
    (byteVal b0 + 256 * byteVal b1 = kBigEndianMagicValue →
      BTF.detectEndianness r = .ok (false, ⟨r.data, 2, true⟩)) ∧
    (byteVal b0 + 256 * byteVal b1 ≠ kLittleEndianMagicValue →
      byteVal b0 + 256 * byteVal b1 ≠ kBigEndianMagicValue →
      BTF.detectEndianness r = .error { code := .InvalidMagicValue }) ∧
    kBigEndianMagicValue =
      kLittleEndianMagicValue % 256 * 256 + kLittleEndianMagicValue / 256 := by
  obtain ⟨rest, hd⟩ : ∃ rest, r.data = b0 :: b1 :: rest := by
    cases hdata : r.data with
    | nil => rw [hdata] at h0; cases h0
    | cons a l =>
      cases l with
      | nil => rw [hdata] at h1; cases h1
      | cons a2 l2 =>
        rw [hdata] at h0 h1
        simp at h0 h1
        exact ⟨l2, by rw [h0, h1]⟩
  have hu16 : ((r.seek 0).setEndianness true).u16 =
      .ok (byteVal b0 + 256 * byteVal b1, ⟨r.data, 2, true⟩) := by
    simp only [FileReader.seek, FileReader.setEndianness, FileReader.u16,
      FileReader.readFixed]
    rw [if_pos (by rw [hd]; simp)]
    simp [hd, assembleLE]
  unfold BTF.detectEndianness
  rw [hu16]
  refine ⟨?_, ?_, ?_, by decide⟩
  · intro hm
    simp [hm, kLittleEndianMagicValue, kBigEndianMagicValue]
  · intro hm
    simp [hm, kLittleEndianMagicValue, kBigEndianMagicValue]
  · intro hm1 hm2
    simp [hm1, hm2]

theorem detectEndianness_spec_witness :
    BTF.detectEndianness ⟨[0x9F, 0xEB, 7], 5, false⟩ =
      .ok (true, ⟨[0x9F, 0xEB, 7], 2, true⟩) ∧
    BTF.detectEndianness ⟨[0xEB, 0x9F], 0, true⟩ =
      .ok (false, ⟨[0xEB, 0x9F], 2, true⟩) ∧
    BTF.detectEndianness ⟨[0, 0], 3, true⟩ =
      .error { code := .InvalidMagicValue } := by
  refine ⟨?_, ?_, ?_⟩
  · exact (detectEndianness_spec ⟨[0x9F, 0xEB, 7], 5, false⟩ 0x9F 0xEB
      (by decide) (by decide)).1 (by decide)
  · exact (detectEndianness_spec ⟨[0xEB, 0x9F], 0, true⟩ 0xEB 0x9F
      (by decide) (by decide)).2.1 (by decide)
  · exact (detectEndianness_spec ⟨[0, 0], 3, true⟩ 0 0
      (by decide) (by decide)).2.2.1 (by decide) (by decide)

/-- C1 (code bug): the struct/union decoder consumes all `vlen` 12-byte
member records but never appends the populated local member to the output,
so a successfully decoded Struct with `vlen = 1` carries an empty member
list instead of the one member read from the payload. -/
theorem parseStructData_drops_members :
    BTF.parseStructData {}
        { name_off := 0, vlen := 1, kind := BTFKind_Struct,
          kind_flag := false, size_or_type := 8 }
        ⟨[0, 0, 0, 0, 3, 0, 0, 0, 0, 0, 0, 0], 0, true⟩ =
      .ok (.structT { opt_name := none, size := 8, member_list := [] },
           ⟨[0, 0, 0, 0, 3, 0, 0, 0, 0, 0, 0, 0], 12, true⟩) ∧
    ({ name_off := 0, vlen := 1, kind := BTFKind_Struct, kind_flag := false,
       size_or_type := 8 } : BTFTypeHeader).vlen = 1 := by
  constructor
  · decide
  · rfl

/-- C2 counterexample: with `name_off = 0` the Int decoder still resolves a
name through the string resolver — here the byte at the start of the string
table flows into the decoded name, which the claim says cannot happen. -/
theorem parseIntData_resolves_name_at_zero :
    BTF.parseIntData {}
        { name_off := 0, vlen := 0, kind := BTFKind_Int, kind_flag := false,
          size_or_type := 1 }
        ⟨[65, 0, 8, 0, 0, 0], 2, true⟩ =
      .ok (.int { name := [65], is_signed := false, is_char := false,
                  is_bool := false, bits := 8, offset := 0 },
           ⟨[65, 0, 8, 0, 0, 0], 6, true⟩) ∧
    ({ name_off := 0, vlen := 0, kind := BTFKind_Int, kind_flag := false,
       size_or_type := 1 } : BTFTypeHeader).name_off = 0 ∧
    ([65] : List Nat) ≠ [] := by
  refine ⟨?_, rfl, by simp⟩
  simp [BTF.parseIntData, BTF.parseString, readCString, FileReader.u8,
    FileReader.u32, FileReader.readFixed, FileReader.seek, FileReader.offset,
    byteVal, assembleLE, entryFileRange, kBTFTypeHeaderSize, kIntBTFTypeSize]

/-- C2 amended: the Int decoder resolves the type's name through the string
resolver unconditionally, at `hdr_len + str_off + name_off`; in particular
when `name_off = 0` a failing string resolution at the start of the string
table fails the whole Int decode. -/
theorem parseIntData_name_resolution_unconditional
    (bh : BTFHeader) (th : BTFTypeHeader) (r : FileReader) (e : BTFError)
    (hkf : th.kind_flag = false) (hvlen : th.vlen = 0)
    (hsz : th.size_or_type = 1 ∨ th.size_or_type = 2 ∨ th.size_or_type = 4 ∨
      th.size_or_type = 8 ∨ th.size_or_type = 16)
    (hname : th.name_off = 0)
    (hfail : (BTF.parseString r (bh.hdr_len + bh.str_off)).1 = .error e) :
    BTF.parseIntData bh th r = .error e := by
  simp only [BTF.parseIntData, hkf, hvlen]
  rw [if_neg (by simp), if_neg (not_not_intro hsz)]
  rw [hname, Nat.add_zero]
  cases hp : BTF.parseString r (bh.hdr_len + bh.str_off) with
  | mk res rr =>
    rw [hp] at hfail
    simp only at hfail
    rw [hfail]

theorem parseIntData_name_resolution_unconditional_witness :
    BTF.parseIntData {}
        { name_off := 0, vlen := 0, kind := BTFKind_Int, kind_flag := false,
          size_or_type := 1 }
        ⟨[], 0, true⟩ =
      .error { code := .IOError, opt_file_range := some ⟨0, 1⟩ } :=
  parseIntData_name_resolution_unconditional {}
    { name_off := 0, vlen := 0, kind := BTFKind_Int, kind_flag := false,
      size_or_type := 1 }
    ⟨[], 0, true⟩ { code := .IOError, opt_file_range := some ⟨0, 1⟩ }
    rfl rfl (by decide) rfl
    (by simp [BTF.parseString, readCString, FileReader.u8, FileReader.readFixed,
          FileReader.seek, BTF.convertFileReaderError])

/-- The kind-specific invalid-encoding error codes (one per supported kind,
as opposed to the codes translated from the byte source and the
magic/dispatch errors). -/
def isKindSpecificCode : BTFErrorCode → Bool
  | .InvalidIntBTFTypeEncoding => true
  | .InvalidPtrBTFTypeEncoding => true
  | .InvalidArrayBTFTypeEncoding => true
  | .InvalidTypedefBTFTypeEncoding => true
  | .InvalidEnumBTFTypeEncoding => true
  | .InvalidFuncProtoBTFTypeEncoding => true
  | .InvalidVolatileBTFTypeEncoding => true
  | .InvalidFwdBTFTypeEncoding => true
  | .InvalidFuncBTFTypeEncoding => true
  | .InvalidStructBTFTypeEncoding => true
  | .InvalidUnionBTFTypeEncoding => true
  | _ => false

theorem convertFileReaderError_not_kind_specific (e : FileReaderErrorInformation) :
    isKindSpecificCode (BTF.convertFileReaderError e).code = false := by
  obtain ⟨c, o⟩ := e
  cases c <;> rfl

theorem parseString_error_not_kind_specific {r : FileReader} {off : Nat}
    {e : BTFError} (h : (BTF.parseString r off).1 = .error e) :
    isKindSpecificCode e.code = false := by
  unfold BTF.parseString at h
  cases hc : readCString (r.seek off) with
  | ok p => obtain ⟨s, r0⟩ := p; rw [hc] at h; simp at h
  | error e0 =>
    rw [hc] at h
    simp only at h
    injection h with h'
    rw [← h']
    exact convertFileReaderError_not_kind_specific e0

theorem optNameStep_error_not_kind_specific {bh : BTFHeader} {noff : Nat}
    {r : FileReader} {e : BTFError} (h : optNameStep bh noff r = .error e) :
    isKindSpecificCode e.code = false := by
  unfold optNameStep at h
  split at h
  · split at h
    · next e0 snd heq =>
      injection h with h'
      subst h'
      exact parseString_error_not_kind_specific (by rw [heq])
    · simp at h
  · simp at h

theorem enumReadValues_error_range {bh : BTFHeader} {fr : FileRange} :
    ∀ {n : Nat} {r : FileReader} {e : BTFError},
      enumReadValues bh fr n r = .error e → isKindSpecificCode e.code = true →
      e = ⟨.InvalidEnumBTFTypeEncoding, some fr⟩ := by
  intro n
  induction n with
  | zero => intro r e h hk; simp [enumReadValues] at h
  | succ n ih =>
    intro r e h hk
    simp only [enumReadValues] at h
    split at h
    · next e0 heq =>
      injection h with h'
      rw [← h'] at hk
      rw [convertFileReaderError_not_kind_specific] at hk
      cases hk
    · split at h
      · injection h with h'
        rw [← h']
      · split at h
        · next e0 snd heq =>
          injection h with h'
          subst h'
          rw [parseString_error_not_kind_specific (by rw [heq])] at hk
          cases hk
        · split at h
          · next e0 heq =>
            injection h with h'
            rw [← h'] at hk
            rw [convertFileReaderError_not_kind_specific] at hk
            cases hk
          · split at h
            · next e0 heq => injection h with h'; subst h'; exact ih heq hk
            · simp at h

theorem funcProtoReadParams_error_not_kind_specific {bh : BTFHeader} :
    ∀ {n : Nat} {r : FileReader} {e : BTFError},
      funcProtoReadParams bh n r = .error e → isKindSpecificCode e.code = false := by
  intro n
  induction n with
  | zero => intro r e h; simp [funcProtoReadParams] at h
  | succ n ih =>
    intro r e h
    simp only [funcProtoReadParams] at h
    split at h
    · next e0 heq =>
      injection h with h'
      rw [← h']
      exact convertFileReaderError_not_kind_specific e0
    · split at h
      · next e0 heq =>
        injection h with h'
        subst h'
        exact optNameStep_error_not_kind_specific heq
      · split at h
        · next e0 heq =>
          injection h with h'
          rw [← h']
          exact convertFileReaderError_not_kind_specific e0
        · split at h
          · next e0 heq => injection h with h'; subst h'; exact ih heq
          · simp at h

theorem structReadMembers_error_not_kind_specific {bh : BTFHeader} :
    ∀ {n : Nat} {r : FileReader} {e : BTFError},
      structReadMembers bh n r = .error e → isKindSpecificCode e.code = false := by
  intro n
  induction n with
  | zero => intro r e h; simp [structReadMembers] at h
  | succ n ih =>
    intro r e h
    simp only [structReadMembers] at h
    split at h
    · next e0 heq =>
      injection h with h'
      rw [← h']
      exact convertFileReaderError_not_kind_specific e0
    · split at h
      · next e0 heq =>
        injection h with h'
        subst h'
        exact optNameStep_error_not_kind_specific heq
      · split at h
        · next e0 heq =>
          injection h with h'
          rw [← h']
          exact convertFileReaderError_not_kind_specific e0
        · split at h
          · next e0 heq =>
            injection h with h'
            rw [← h']
            exact convertFileReaderError_not_kind_specific e0
          · exact ih h

/-- C4 amended: whenever a per-kind decoder fails with a kind-specific
invalid-encoding error, the attached byte range starts at the offset of the
entry's 12-byte type header, and its length is the same
`kBTFTypeHeaderSize + kIntBTFTypeSize` (12 + 4) for every kind — the payload
term of the estimate is always the Int payload size, not a per-kind value. -/
theorem parseStructOrUnionData_error_not_kind_specific {bh : BTFHeader}
    {th : BTFTypeHeader} {r : FileReader} {e : BTFError}
    (h : parseStructOrUnionData bh th r = .error e) :
    isKindSpecificCode e.code = false := by
  simp only [parseStructOrUnionData] at h
  split at h
  · next e0 heq =>
    injection h with h'
    subst h'
    exact optNameStep_error_not_kind_specific heq
  · split at h
    · next e0 heq =>
      injection h with h'
      subst h'
      exact structReadMembers_error_not_kind_specific heq
    · exact absurd h (by simp)

theorem kindSpecificError_range {k : Nat} {p : BTFTypeParser}
    (hm : kBTFParserMap k = some p) {bh : BTFHeader} {th : BTFTypeHeader}
    {r : FileReader} {e : BTFError}
    (he : p bh th r = .error e) (hk : isKindSpecificCode e.code = true) :
    e.opt_file_range =
      some ⟨r.offset - kBTFTypeHeaderSize, kBTFTypeHeaderSize + kIntBTFTypeSize⟩ := by
  have hrange : ∀ c, e = ⟨c, some (entryFileRange r)⟩ →
      e.opt_file_range =
        some ⟨r.offset - kBTFTypeHeaderSize, kBTFTypeHeaderSize + kIntBTFTypeSize⟩ := by
    intro c hc; rw [hc]; rfl
  unfold kBTFParserMap at hm
  split_ifs at hm <;> simp only [Option.some.injEq] at hm <;> subst hm <;>
    [skip; skip; skip; skip; skip; skip; skip; skip; skip; skip; skip; skip]
  · -- Int
    simp only [BTF.parseIntData] at he
    repeat' split at he
    all_goals
      first
      | (injection he with h'; exact hrange _ h'.symm)
      | (next heq =>
          injection he with h'
          subst h'
          rw [parseString_error_not_kind_specific (by rw [heq])] at hk
          cases hk)
      | (next heq =>
          injection he with h'
          rw [← h'] at hk
          rw [convertFileReaderError_not_kind_specific] at hk
          cases hk)
      | exact absurd he (by simp)
  · -- Ptr
    simp only [BTF.parsePtrData] at he
    split at he
    · injection he with h'; exact hrange _ h'.symm
    · exact absurd he (by simp)
  · -- Const
    simp only [BTF.parseConstData] at he
    split at he
    · injection he with h'; exact hrange _ h'.symm
    · exact absurd he (by simp)
  · -- Array
    simp only [BTF.parseArrayData] at he
    repeat' split at he
    all_goals
      first
      | (injection he with h'; exact hrange _ h'.symm)
      | (next heq =>
          injection he with h'
          rw [← h'] at hk
          rw [convertFileReaderError_not_kind_specific] at hk
          cases hk)
      | exact absurd he (by simp)
  · -- Typedef
    simp only [BTF.parseTypedefData] at he
    repeat' split at he
    all_goals
      first
      | (injection he with h'; exact hrange _ h'.symm)
      | (next heq =>
          injection he with h'
          subst h'
          rw [parseString_error_not_kind_specific (by rw [heq])] at hk
          cases hk)
      | exact absurd he (by simp)
  · -- Enum
    simp only [BTF.parseEnumData] at he
    repeat' split at he
    all_goals
      first
      | (injection he with h'; exact hrange _ h'.symm)
      | (next heq =>
          injection he with h'
          subst h'
          rw [optNameStep_error_not_kind_specific heq] at hk
          cases hk)
      | (next heq =>
          injection he with h'
          subst h'
          exact hrange _ (enumReadValues_error_range heq hk))
      | exact absurd he (by simp)
  · -- FuncProto
    simp only [BTF.parseFuncProtoData] at he
    repeat' split at he
    all_goals
      first
      | (injection he with h'; exact hrange _ h'.symm)
      | (next heq =>
          injection he with h'
          subst h'
          rw [funcProtoReadParams_error_not_kind_specific heq] at hk
          cases hk)
      | exact absurd he (by simp)
  · -- Volatile
    simp only [BTF.parseVolatileData] at he
    split at he
    · injection he with h'; exact hrange _ h'.symm
    · exact absurd he (by simp)
  · -- Struct
    simp only [BTF.parseStructData] at he
    split at he
    · next e0 heq =>
      injection he with h'
      subst h'
      rw [parseStructOrUnionData_error_not_kind_specific heq] at hk
      cases hk
    · exact absurd he (by simp)
  · -- Union
    simp only [BTF.parseUnionData] at he
    split at he
    · next e0 heq =>
      injection he with h'
      subst h'
      rw [parseStructOrUnionData_error_not_kind_specific heq] at hk
      cases hk
    · exact absurd he (by simp)
  · -- Fwd
    simp only [BTF.parseFwdData] at he
    repeat' split at he
    all_goals
      first
      | (injection he with h'; exact hrange _ h'.symm)
      | (next heq =>
          injection he with h'
          subst h'
          rw [parseString_error_not_kind_specific (by rw [heq])] at hk
          cases hk)
      | exact absurd he (by simp)
  · -- Func
    simp only [BTF.parseFuncData] at he
    repeat' split at he
    all_goals
      first
      | (injection he with h'; exact hrange _ h'.symm)
      | (next heq =>
          injection he with h'
          subst h'
          rw [parseString_error_not_kind_specific (by rw [heq])] at hk
          cases hk)
      | exact absurd he (by simp)

theorem kindSpecificError_range_witness :
    BTF.parsePtrData {} { name_off := 1 } ⟨[], 12, true⟩ =
      .error ⟨.InvalidPtrBTFTypeEncoding, some ⟨0, 16⟩⟩ ∧
    (⟨.InvalidPtrBTFTypeEncoding, some ⟨0, 16⟩⟩ : BTFError).opt_file_range =
      some ⟨(⟨[], 12, true⟩ : FileReader).offset - kBTFTypeHeaderSize,
            kBTFTypeHeaderSize + kIntBTFTypeSize⟩ := by
  refine ⟨by decide, ?_⟩
  exact @kindSpecificError_range BTFKind_Ptr BTF.parsePtrData rfl {}
    { name_off := 1 } ⟨[], 12, true⟩
    ⟨.InvalidPtrBTFTypeEncoding, some ⟨0, 16⟩⟩ (by decide) (by decide)

/-- C4 counterexample: the Ptr decoder (no payload) and the Enum decoder
(4 + 8·vlen bytes of payload) attach byte ranges of the same length 16 on
their kind-specific failures, refuting the claim that decoders with
different payload shapes attach different lengths. -/
theorem kindSpecificError_same_length :
    BTF.parsePtrData {} { name_off := 1 } ⟨[], 12, true⟩ =
      .error ⟨.InvalidPtrBTFTypeEncoding, some ⟨0, 16⟩⟩ ∧
    BTF.parseEnumData {} { vlen := 0, kind := BTFKind_Enum } ⟨[], 12, true⟩ =
      .error ⟨.InvalidEnumBTFTypeEncoding, some ⟨0, 16⟩⟩ ∧
    (16 : Nat) = 16 := by
  exact ⟨by decide, by decide, rfl⟩

theorem parseTypeSectionLoop_consumes (bh : BTFHeader) (endOff : Nat) :
    ∀ (fuelm : Nat) (r : FileReader), endOff - r.pos ≤ fuelm →
      ∀ {lst : List BTFType} {r' : FileReader},
        parseTypeSectionLoop bh endOff r = .ok (lst, r') → endOff ≤ r'.pos := by
  intro fuelm
  induction fuelm with
  | zero =>
    intro r hle lst r' h
    rw [parseTypeSectionLoop.eq_def,
        if_pos (by simp only [FileReader.offset, ge_iff_le]; omega)] at h
    injection h with h'
    injection h' with h1 h2
    subst h2
    omega
  | succ m ih =>
    intro r hle lst r' h
    rw [parseTypeSectionLoop.eq_def] at h
    split at h
    · next hge =>
      injection h with h'
      injection h' with h1 h2
      subst h2
      simpa [FileReader.offset, ge_iff_le] using hge
    · next hlt =>
      split at h
      · simp at h
      · next th r1 hh =>
        split at h
        · simp at h
        · next parser hm =>
          split at h
          · simp at h
          · next t r2 hp =>
            split at h
            · simp at h
            · next rest r3 hrec =>
              injection h with h'
              injection h' with h1 h2
              subst h2
              have e1 := BTF.parseTypeHeader_ok hh
              have e2 := kBTFParserMap_mono hm hp
              rw [e1] at e2
              simp only [FileReader.offset, ge_iff_le, not_le] at hlt
              simp only at e2
              exact ih r2 (by omega) hrec

/-- C3 amended: the type-section loop terminates when the cursor reaches or
passes the declared section end, so a successful parse never silently
truncates: the final cursor is at or past
`hdr_len + type_off + type_len`. But a misaligned section (declared length
not equal to the bytes actually consumed) is not itself an error: when the
bytes past the declared end decode as valid entries the parse succeeds,
having consumed more than `type_len` bytes; an error surfaces only when the
overrun read fails or hits malformed data. -/
theorem parseTypeSection_no_truncation (bh : BTFHeader) (r : FileReader)
    {lst : List BTFType} {r' : FileReader}
    (h : BTF.parseTypeSection bh r = .ok (lst, r')) :
    bh.hdr_len + bh.type_off + bh.type_len ≤ r'.pos := by
  unfold BTF.parseTypeSection at h
  have := parseTypeSectionLoop_consumes bh
    (bh.hdr_len + bh.type_off + bh.type_len)
    (bh.hdr_len + bh.type_off + bh.type_len)
    (r.seek (bh.hdr_len + bh.type_off)) (Nat.sub_le _ _) h
  exact this

/-- C3 counterexample: a type section declaring `type_len = 1` whose bytes
form one valid Ptr entry (12 bytes) parses successfully — 12 bytes consumed
against 1 declared — instead of surfacing a read failure. -/
theorem parseTypeSection_misaligned_succeeds :
    BTF.parseTypeSection { type_len := 1 }
        ⟨[0, 0, 0, 0, 0, 0, 0, 2, 7, 0, 0, 0], 99, true⟩ =
      .ok ([.ptr { type := 7 }],
           ⟨[0, 0, 0, 0, 0, 0, 0, 2, 7, 0, 0, 0], 12, true⟩) ∧
    (⟨[0, 0, 0, 0, 0, 0, 0, 2, 7, 0, 0, 0], 12, true⟩ : FileReader).pos -
        (({ type_len := 1 } : BTFHeader).hdr_len +
         ({ type_len := 1 } : BTFHeader).type_off) ≠
      ({ type_len := 1 } : BTFHeader).type_len := by
  refine ⟨?_, by decide⟩
  simp [BTF.parseTypeSection, parseTypeSectionLoop, BTF.parseTypeHeader,
    FileReader.u32, FileReader.readFixed, FileReader.seek, FileReader.offset,
    assembleLE, byteVal, infoVlen, infoKind, infoKindFlag, kBTFParserMap,
    BTFKind_Int, BTFKind_Ptr, BTF.parsePtrData, BTF.parseIntData,
    entryFileRange]

theorem parseTypeSection_no_truncation_witness :
    ({ type_len := 1 } : BTFHeader).hdr_len +
      ({ type_len := 1 } : BTFHeader).type_off +
      ({ type_len := 1 } : BTFHeader).type_len ≤
    (⟨[0, 0, 0, 0, 0, 0, 0, 2, 7, 0, 0, 0], 12, true⟩ : FileReader).pos := by
  have h : BTF.parseTypeSection { type_len := 1 }
      ⟨[0, 0, 0, 0, 0, 0, 0, 2, 7, 0, 0, 0], 99, true⟩ =
    .ok ([.ptr { type := 7 }],
         ⟨[0, 0, 0, 0, 0, 0, 0, 2, 7, 0, 0, 0], 12, true⟩) := by
    simp [BTF.parseTypeSection, parseTypeSectionLoop, BTF.parseTypeHeader,
      FileReader.u32, FileReader.readFixed, FileReader.seek, FileReader.offset,
      assembleLE, byteVal, infoVlen, infoKind, infoKindFlag, kBTFParserMap,
      BTFKind_Int, BTFKind_Ptr, BTF.parsePtrData, BTF.parseIntData,
      entryFileRange]
  exact parseTypeSection_no_truncation { type_len := 1 }
    ⟨[0, 0, 0, 0, 0, 0, 0, 2, 7, 0, 0, 0], 99, true⟩ h

/-- The trailing-sentinel test of the claim: the parameter list is non-empty
and its last entry has no name and type ID 0. -/
def funcProtoSentinel (ps : List FuncProtoParam) : Bool :=
  match ps.getLast? with
  | some l => l.opt_name.isNone && l.type == 0
  | none => false

theorem funcProtoReadParams_length {bh : BTFHeader} :
    ∀ {n : Nat} {r : FileReader} {ps : List FuncProtoParam} {r' : FileReader},
      funcProtoReadParams bh n r = .ok (ps, r') → ps.length = n := by
  intro n
  induction n with
  | zero =>
    intro r ps r' h
    simp only [funcProtoReadParams, Except.ok.injEq, Prod.mk.injEq] at h
    rw [← h.1]
    rfl
  | succ n ih =>
    intro r ps r' h
    simp only [funcProtoReadParams] at h
    split at h
    · simp at h
    · split at h
      · simp at h
      · split at h
        · simp at h
        · split at h
          · simp at h
          · next rest r4 heq4 =>
            simp only [Except.ok.injEq, Prod.mk.injEq] at h
            rw [← h.1]
            simp [ih heq4]

/-- C6: when the FuncProto structural checks pass and the parameter loop
succeeds with list `ps` (which has exactly `vlen` entries), the decoder
returns `ps` unchanged with `variadic = false` unless `ps` ends in an
unnamed, type-ID-0 sentinel, in which case that entry is dropped and
`variadic = true`; in particular `vlen = 0` yields no parameters and
`variadic = false`. -/
theorem parseFuncProtoData_sentinel (bh : BTFHeader) (th : BTFTypeHeader)
    (r : FileReader) (ps : List FuncProtoParam) (r1 : FileReader)
    (hname : th.name_off = 0) (hkf : th.kind_flag = false)
    (hloop : funcProtoReadParams bh th.vlen r = .ok (ps, r1)) :
    BTF.parseFuncProtoData bh th r =
      .ok (.funcProto
        { param_list := if funcProtoSentinel ps then ps.dropLast else ps,
          variadic := funcProtoSentinel ps }, r1) ∧
    ps.length = th.vlen := by
  refine ⟨?_, funcProtoReadParams_length hloop⟩
  simp only [BTF.parseFuncProtoData, hname, hkf]
  rw [if_neg (by simp), hloop]
  simp only []
  cases hL : ps.getLast? with
  | none => simp [funcProtoSentinel, hL]
  | some l =>
    by_cases hc : l.opt_name = none ∧ l.type = 0
    · simp only []
      rw [if_pos hc]
      have hsent : funcProtoSentinel ps = true := by
        unfold funcProtoSentinel
        rw [hL]
        simp [hc.1, hc.2]
      rw [hsent]
      simp
    · simp only []
      rw [if_neg hc]
      have hsent : funcProtoSentinel ps = false := by
        unfold funcProtoSentinel
        rw [hL]
        cases hn : l.opt_name with
        | some v => simp [hn]
        | none =>
          have ht : l.type ≠ 0 := fun ht => hc ⟨hn, ht⟩
          simp [hn, ht]
      rw [hsent]
      simp

theorem parseFuncProtoData_sentinel_witness :
    BTF.parseFuncProtoData {}
        { name_off := 0, vlen := 1, kind := BTFKind_FuncProto,
          kind_flag := false, size_or_type := 0 }
        ⟨[0, 0, 0, 0, 0, 0, 0, 0], 0, true⟩ =
      .ok (.funcProto { param_list := [], variadic := true },
           ⟨[0, 0, 0, 0, 0, 0, 0, 0], 8, true⟩) ∧
    ([({} : FuncProtoParam)] : List FuncProtoParam).length = 1 := by
  have h := parseFuncProtoData_sentinel {}
    { name_off := 0, vlen := 1, kind := BTFKind_FuncProto,
      kind_flag := false, size_or_type := 0 }
    ⟨[0, 0, 0, 0, 0, 0, 0, 0], 0, true⟩
    [{}] ⟨[0, 0, 0, 0, 0, 0, 0, 0], 8, true⟩ rfl rfl (by decide)
  exact ⟨h.1, h.2⟩

theorem intSignedBit_iff (ii : Nat) :
    ii / 2 ^ 24 % 2 ^ 4 % 2 = 1 ↔ ii.testBit 24 = true := by
  rw [Nat.testBit_to_div_mod]
  simp only [decide_eq_true_eq]
  generalize ii / 2 ^ 24 = y
  omega

theorem intCharBit_iff (ii : Nat) :
    ii / 2 ^ 24 % 2 ^ 4 / 2 % 2 = 1 ↔ ii.testBit 25 = true := by
  rw [Nat.testBit_to_div_mod]
  simp only [decide_eq_true_eq]
  have h : ii / 2 ^ 25 = ii / 2 ^ 24 / 2 := by
    rw [Nat.div_div_eq_div_mul]
    norm_num
  rw [h]
  generalize ii / 2 ^ 24 = y
  omega

theorem intBoolBit_iff (ii : Nat) :
    ii / 2 ^ 24 % 2 ^ 4 / 4 % 2 = 1 ↔ ii.testBit 26 = true := by
  rw [Nat.testBit_to_div_mod]
  simp only [decide_eq_true_eq]
  have h : ii / 2 ^ 26 = ii / 2 ^ 24 / 4 := by
    rw [Nat.div_div_eq_div_mul]
    norm_num
  rw [h]
  generalize ii / 2 ^ 24 = y
  omega

/-- The Int rejection condition as the claim states it: `kind_flag` set,
`vlen` non-zero, size outside {1,2,4,8,16}, more than one of the
signed/char/bool flags (bits 24-26 of the encoding word) set, bit width
(low 8 bits) above 128 or above size*8, or bit offset (bits 16-23) plus
width above size*8 — the boundary `offset + width = size*8` accepted. -/
def intEncodingRejected (th : BTFTypeHeader) (integer_info : Nat) : Prop :=
  th.kind_flag = true ∨ th.vlen ≠ 0 ∨
  ¬(th.size_or_type = 1 ∨ th.size_or_type = 2 ∨ th.size_or_type = 4 ∨
    th.size_or_type = 8 ∨ th.size_or_type = 16) ∨
  (integer_info.testBit 24 = true ∧ integer_info.testBit 25 = true) ∨
  (integer_info.testBit 24 = true ∧ integer_info.testBit 26 = true) ∨
  (integer_info.testBit 25 = true ∧ integer_info.testBit 26 = true) ∨
  128 < integer_info % 2 ^ 8 ∨
  th.size_or_type * 8 < integer_info % 2 ^ 8 ∨
  th.size_or_type * 8 < integer_info / 2 ^ 16 % 2 ^ 8 + integer_info % 2 ^ 8

instance (th : BTFTypeHeader) (ii : Nat) : Decidable (intEncodingRejected th ii) := by
  unfold intEncodingRejected
  infer_instance

theorem intEncodingRejected_arith_iff (th : BTFTypeHeader) (ii : Nat) :
    intEncodingRejected th ii ↔
      th.kind_flag = true ∨ th.vlen ≠ 0 ∨
      ¬(th.size_or_type = 1 ∨ th.size_or_type = 2 ∨ th.size_or_type = 4 ∨
        th.size_or_type = 8 ∨ th.size_or_type = 16) ∨
      1 < ii / 2 ^ 24 % 2 ^ 4 % 2 + ii / 2 ^ 24 % 2 ^ 4 / 2 % 2 +
          ii / 2 ^ 24 % 2 ^ 4 / 4 % 2 ∨
      128 < ii % 2 ^ 8 ∨ th.size_or_type * 8 < ii % 2 ^ 8 ∨
      th.size_or_type * 8 < ii / 2 ^ 16 % 2 ^ 8 + ii % 2 ^ 8 := by
  unfold intEncodingRejected
  have h24 := intSignedBit_iff ii
  have h25 := intCharBit_iff ii
  have h26 := intBoolBit_iff ii
  constructor
  · rintro (h | h | h | h | h | h | h | h | h)
    · exact Or.inl h
    · exact Or.inr (Or.inl h)
    · exact Or.inr (Or.inr (Or.inl h))
    · refine Or.inr (Or.inr (Or.inr (Or.inl ?_)))
      have hA := h24.mpr h.1
      have hB := h25.mpr h.2
      omega
    · refine Or.inr (Or.inr (Or.inr (Or.inl ?_)))
      have hA := h24.mpr h.1
      have hC := h26.mpr h.2
      omega
    · refine Or.inr (Or.inr (Or.inr (Or.inl ?_)))
      have hB := h25.mpr h.1
      have hC := h26.mpr h.2
      omega
    · exact Or.inr (Or.inr (Or.inr (Or.inr (Or.inl h))))
    · exact Or.inr (Or.inr (Or.inr (Or.inr (Or.inr (Or.inl h)))))
    · exact Or.inr (Or.inr (Or.inr (Or.inr (Or.inr (Or.inr h)))))
  · rintro (h | h | h | h | h | h | h)
    · exact Or.inl h
    · exact Or.inr (Or.inl h)
    · exact Or.inr (Or.inr (Or.inl h))
    · by_cases hA : ii / 2 ^ 24 % 2 ^ 4 % 2 = 1 <;>
        by_cases hB : ii / 2 ^ 24 % 2 ^ 4 / 2 % 2 = 1 <;>
          by_cases hC : ii / 2 ^ 24 % 2 ^ 4 / 4 % 2 = 1
      · exact Or.inr (Or.inr (Or.inr (Or.inl ⟨h24.mp hA, h25.mp hB⟩)))
      · exact Or.inr (Or.inr (Or.inr (Or.inl ⟨h24.mp hA, h25.mp hB⟩)))
      · exact Or.inr (Or.inr (Or.inr (Or.inr (Or.inl ⟨h24.mp hA, h26.mp hC⟩))))
      · exfalso; omega
      · exact Or.inr (Or.inr (Or.inr (Or.inr (Or.inr
          (Or.inl ⟨h25.mp hB, h26.mp hC⟩)))))
      · exfalso; omega
      · exfalso; omega
      · exfalso; omega
    · exact Or.inr (Or.inr (Or.inr (Or.inr (Or.inr (Or.inr (Or.inl h))))))
    · exact Or.inr (Or.inr (Or.inr (Or.inr (Or.inr (Or.inr (Or.inr
        (Or.inl h)))))))
    · exact Or.inr (Or.inr (Or.inr (Or.inr (Or.inr (Or.inr (Or.inr
        (Or.inr h)))))))

/-- C5: given that the name resolution and the encoding-word read succeed,
the Int decoder fails with the Int-encoding error exactly when the claim's
rejection condition holds on the type header and the 4-byte encoding word,
and otherwise succeeds with a decoded Int. -/
theorem parseIntData_rejects_iff (bh : BTFHeader) (th : BTFTypeHeader)
    (r : FileReader) (nm : List Nat) (r1 : FileReader) (integer_info : Nat)
    (r2 : FileReader)
    (hname : BTF.parseString r (bh.hdr_len + bh.str_off + th.name_off) =
      (.ok nm, r1))
    (hinfo : r1.u32 = .ok (integer_info, r2)) :
    ((∃ e, BTF.parseIntData bh th r = .error e ∧
        e.code = .InvalidIntBTFTypeEncoding) ↔
      intEncodingRejected th integer_info) ∧
    (¬ intEncodingRejected th integer_info →
      ∃ out r', BTF.parseIntData bh th r = .ok (.int out, r')) := by
  cases hval : BTF.parseIntData bh th r with
  | error e =>
    have hcond : e.code = .InvalidIntBTFTypeEncoding ∧
        intEncodingRejected th integer_info := by
      simp only [BTF.parseIntData] at hval
      split at hval
      · next c1 =>
        refine ⟨by injection hval with h'; rw [← h'], ?_⟩
        unfold intEncodingRejected
        tauto
      · next c1 =>
        split at hval
        · next c2 =>
          refine ⟨by injection hval with h'; rw [← h'], ?_⟩
          unfold intEncodingRejected
          tauto
        · next c2 =>
          rw [hname] at hval
          simp only [] at hval
          rw [hinfo] at hval
          simp only [] at hval
          clear hname hinfo
          by_cases hA : integer_info / 2 ^ 24 % 2 ^ 4 % 2 = 1 <;>
            by_cases hB : integer_info / 2 ^ 24 % 2 ^ 4 / 2 % 2 = 1 <;>
              by_cases hC : integer_info / 2 ^ 24 % 2 ^ 4 / 4 % 2 = 1 <;>
                by_cases hD : integer_info % 2 ^ 8 > 128 ∨
                  integer_info % 2 ^ 8 > th.size_or_type * 8 <;>
                  by_cases hE : integer_info / 2 ^ 16 % 2 ^ 8 +
                      integer_info % 2 ^ 8 > th.size_or_type * 8 <;>
                    simp only [hA, hB, hC, hD, hE, decide_True, decide_False,
                      reduceIte, if_true, if_false, ite_true, ite_false,
                      not_false_iff, gt_iff_lt, Nat.reduceAdd, Nat.reduceLT,
                      ite_self] at hval <;>
                    first
                    | (refine ⟨by first
                          | (injection hval with h'; rw [← h'])
                          | rw [← hval], ?_⟩
                       rw [intEncodingRejected_arith_iff]
                       refine Or.inr (Or.inr (Or.inr ?_))
                       omega)
                    | (simp at hval)
    refine ⟨⟨fun _ => hcond.2, fun _ => ⟨e, rfl, hcond.1⟩⟩, ?_⟩
    intro hn
    exact absurd hcond.2 hn
  | ok p =>
    obtain ⟨t0, r0⟩ := p
    have hnot : ¬ intEncodingRejected th integer_info ∧
        ∃ out, t0 = .int out := by
      simp only [BTF.parseIntData] at hval
      split at hval
      · exact absurd hval (by simp)
      · next c1 =>
        split at hval
        · exact absurd hval (by simp)
        · next c2 =>
          rw [hname] at hval
          simp only [] at hval
          rw [hinfo] at hval
          simp only [] at hval
          clear hname hinfo
          by_cases hA : integer_info / 2 ^ 24 % 2 ^ 4 % 2 = 1 <;>
            by_cases hB : integer_info / 2 ^ 24 % 2 ^ 4 / 2 % 2 = 1 <;>
              by_cases hC : integer_info / 2 ^ 24 % 2 ^ 4 / 4 % 2 = 1 <;>
                by_cases hD : integer_info % 2 ^ 8 > 128 ∨
                  integer_info % 2 ^ 8 > th.size_or_type * 8 <;>
                  by_cases hE : integer_info / 2 ^ 16 % 2 ^ 8 +
                      integer_info % 2 ^ 8 > th.size_or_type * 8 <;>
                    simp only [hA, hB, hC, hD, hE, decide_True, decide_False,
                      reduceIte, if_true, if_false, ite_true, ite_false,
                      not_false_iff, gt_iff_lt, Nat.reduceAdd, Nat.reduceLT,
                      ite_self] at hval <;>
                    first
                    | ((first
                          | (injection hval with h'
                             injection h' with ht hr)
                          | (obtain ⟨ht, hr⟩ := hval))
                       refine ⟨?_, ⟨_, ht.symm⟩⟩
                       intro hrej
                       rw [intEncodingRejected_arith_iff] at hrej
                       rcases hrej with h | h | h | h
                       · exact c1 (Or.inl h)
                       · exact c1 (Or.inr h)
                       · exact h (not_not.mp c2)
                       · omega)
                    | (simp at hval)
    refine ⟨⟨?_, fun hrej => absurd hrej hnot.1⟩, ?_⟩
    · rintro ⟨e, he, -⟩
      exact Except.noConfusion he
    · intro _
      obtain ⟨out, hout⟩ := hnot.2
      exact ⟨out, r0, by rw [hout]⟩

theorem parseIntData_rejects_iff_witness :
    ¬ intEncodingRejected
        { name_off := 0, vlen := 0, kind := BTFKind_Int, kind_flag := false,
          size_or_type := 4 } 32 ∧
    ∃ out r', BTF.parseIntData {}
        { name_off := 0, vlen := 0, kind := BTFKind_Int, kind_flag := false,
          size_or_type := 4 }
        ⟨[0, 32, 0, 0, 0], 1, true⟩ = .ok (.int out, r') := by
  have h := parseIntData_rejects_iff {}
    { name_off := 0, vlen := 0, kind := BTFKind_Int, kind_flag := false,
      size_or_type := 4 }
    ⟨[0, 32, 0, 0, 0], 1, true⟩ [] ⟨[0, 32, 0, 0, 0], 1, true⟩ 32
    ⟨[0, 32, 0, 0, 0], 5, true⟩
    (by simp [BTF.parseString, readCString, FileReader.u8, FileReader.readFixed,
          FileReader.seek, FileReader.offset, byteVal, assembleLE])
    (by decide)
  exact ⟨by decide, h.2 (by decide)⟩

theorem readU32At_u32 {r : FileReader} {p v : Nat} (h : readU32At r p = some v) :
    FileReader.u32 { r with pos := p } = .ok (v, { r with pos := p + 4 }) := by
  unfold readU32At at h
  cases hu : FileReader.u32 { r with pos := p } with
  | error e => rw [hu] at h; cases h
  | ok pr =>
    obtain ⟨v0, r0⟩ := pr
    rw [hu] at h
    simp only [Option.some.injEq] at h
    obtain ⟨hr0, -⟩ := FileReader.u32_ok hu
    simp only [] at hr0
    rw [← h, hr0]

theorem parseString_pair_of_cstringAt {r : FileReader} {off : Nat}
    {s : List Nat} (h : cstringAt r.data off = some s) :
    BTF.parseString r off = (.ok s, r) := by
  have h1 : (BTF.parseString r off).1 = .ok s := (parseString_ok_iff r off s).mpr h
  have h2 := BTF.parseString_snd r off
  cases hp : BTF.parseString r off with
  | mk a b =>
    rw [hp] at h1 h2
    simp only [] at h1 h2
    rw [h1, h2]

/-- An Enum enumerator record stored at absolute position `p` is well-formed
and readable: a non-zero 4-byte name offset whose string resolves in the
table, followed by a readable 4-byte value. -/
def enumRecordFine (bh : BTFHeader) (r : FileReader) (p : Nat) : Prop :=
  ∃ w, readU32At r p = some w ∧ w ≠ 0 ∧
    (∃ s, cstringAt r.data (bh.hdr_len + bh.str_off + w) = some s) ∧
    ∃ v, readU32At r (p + 4) = some v

theorem enumReadValues_success {bh : BTFHeader} {fr : FileRange} :
    ∀ (n : Nat) (r : FileReader),
      (∀ i, i < n → enumRecordFine bh r (r.pos + 8 * i)) →
      ∃ vs r', enumReadValues bh fr n r = .ok (vs, r') ∧ vs.length = n ∧
        ∀ i, i < n → ∃ w s v,
          readU32At r (r.pos + 8 * i) = some w ∧ w ≠ 0 ∧
          cstringAt r.data (bh.hdr_len + bh.str_off + w) = some s ∧
          readU32At r (r.pos + 8 * i + 4) = some v ∧
          vs[i]? = some ⟨s, toInt32 v⟩ := by
  intro n
  induction n with
  | zero =>
    intro r hfine
    exact ⟨[], r, rfl, rfl, fun i hi => absurd hi (by omega)⟩
  | succ n ih =>
    intro r hfine
    obtain ⟨w, hw, hw0, ⟨s, hs⟩, ⟨v, hv⟩⟩ := by
      have := hfine 0 (by omega)
      simpa using this
    have hu1 : r.u32 = .ok (w, { r with pos := r.pos + 4 }) := readU32At_u32 hw
    have hps : BTF.parseString { r with pos := r.pos + 4 }
        (bh.hdr_len + bh.str_off + w) =
        (.ok s, { r with pos := r.pos + 4 }) := parseString_pair_of_cstringAt hs
    have hu2 : FileReader.u32 { r with pos := r.pos + 4 } =
        .ok (v, { r with pos := r.pos + 4 + 4 }) := by
      have hv' : readU32At r (r.pos + 4) = some v := by
        have e : r.pos + 8 * 0 + 4 = r.pos + 4 := by omega
        rw [e] at hv
        exact hv
      exact readU32At_u32 hv'
    have hfine3 : ∀ i, i < n →
        enumRecordFine bh { r with pos := r.pos + 4 + 4 }
          (({ r with pos := r.pos + 4 + 4 } : FileReader).pos + 8 * i) := by
      intro i hi
      have e : (({ r with pos := r.pos + 4 + 4 } : FileReader)).pos + 8 * i =
          r.pos + 8 * (i + 1) := by simp; omega
      rw [e]
      exact hfine (i + 1) (by omega)
    obtain ⟨vs, r', hrun, hlen, hchar⟩ := ih { r with pos := r.pos + 4 + 4 } hfine3
    refine ⟨⟨s, toInt32 v⟩ :: vs, r', ?_, by simp [hlen], ?_⟩
    · simp only [enumReadValues, hu1, hps, hu2, hrun, hw0, reduceIte,
        ite_false, if_false]
    · intro i hi
      cases i with
      | zero =>
        refine ⟨w, s, v, by simpa using hw, hw0, hs, ?_, by simp⟩
        have e : r.pos + 8 * 0 + 4 = r.pos + 4 := by omega
        rw [e]
        have e2 : r.pos + 8 * 0 + 4 = r.pos + 4 := by omega
        rw [e2] at hv
        exact hv
      | succ i =>
        obtain ⟨w', s', v', hw', hw0', hs', hv', hvs'⟩ := hchar i (by omega)
        have e : (({ r with pos := r.pos + 4 + 4 } : FileReader)).pos + 8 * i =
            r.pos + 8 * (i + 1) := by simp; omega
        rw [e] at hw'
        have e4 : (({ r with pos := r.pos + 4 + 4 } : FileReader)).pos + 8 * i + 4 =
            r.pos + 8 * (i + 1) + 4 := by simp; omega
        rw [e4] at hv'
        exact ⟨w', s', v', hw', hw0', hs', hv', by simpa using hvs'⟩

theorem enumReadValues_zero_record {bh : BTFHeader} {fr : FileRange} :
    ∀ (n : Nat) (r : FileReader),
      (∃ i, i < n ∧ (∀ j, j < i → enumRecordFine bh r (r.pos + 8 * j)) ∧
        readU32At r (r.pos + 8 * i) = some 0) →
      enumReadValues bh fr n r = .error ⟨.InvalidEnumBTFTypeEncoding, some fr⟩ := by
  intro n
  induction n with
  | zero =>
    rintro r ⟨i, hi, -, -⟩
    omega
  | succ n ih =>
    rintro r ⟨i, hi, hpre, hzero⟩
    cases i with
    | zero =>
      have h0 : readU32At r r.pos = some 0 := by simpa using hzero
      have hu := readU32At_u32 h0
      simp only [enumReadValues]
      rw [show r.u32 = .ok (0, { r with pos := r.pos + 4 }) from hu]
      simp
    | succ i =>
      obtain ⟨w, hw, hw0, ⟨s, hs⟩, ⟨v, hv⟩⟩ := by
        have := hpre 0 (by omega)
        simpa using this
      have hu1 : r.u32 = .ok (w, { r with pos := r.pos + 4 }) := readU32At_u32 hw
      have hps : BTF.parseString { r with pos := r.pos + 4 }
          (bh.hdr_len + bh.str_off + w) =
          (.ok s, { r with pos := r.pos + 4 }) := parseString_pair_of_cstringAt hs
      have hu2 : FileReader.u32 { r with pos := r.pos + 4 } =
          .ok (v, { r with pos := r.pos + 4 + 4 }) := by
        have hv' : readU32At r (r.pos + 4) = some v := by
          have e : r.pos + 8 * 0 + 4 = r.pos + 4 := by omega
          rw [e] at hv
          exact hv
        exact readU32At_u32 hv'
      have hrec : enumReadValues bh fr n { r with pos := r.pos + 4 + 4 } =
          .error ⟨.InvalidEnumBTFTypeEncoding, some fr⟩ := by
        refine ih { r with pos := r.pos + 4 + 4 } ⟨i, by omega, ?_, ?_⟩
        · intro j hj
          have e : (({ r with pos := r.pos + 4 + 4 } : FileReader)).pos + 8 * j =
              r.pos + 8 * (j + 1) := by simp; omega
          rw [e]
          exact hpre (j + 1) (by omega)
        · have e : (({ r with pos := r.pos + 4 + 4 } : FileReader)).pos + 8 * i =
              r.pos + 8 * (i + 1) := by simp; omega
          rw [e]
          exact hzero
      simp only [enumReadValues, hu1, hps, hu2, hrec, hw0, reduceIte,
        ite_false, if_false]

/-- C7: the Enum decoder fails with the Enum-encoding error when `kind_flag`
is set, `vlen` is 0, or `size_or_type` is outside {1,2,4,8} — and, once the
optional name step succeeds, when the records up to some index are
well-formed and that record's 4-byte name offset is 0; when all `vlen`
records are well-formed it returns an Enum whose value list holds the `vlen`
(name, signed 32-bit value) pairs read from the payload, in payload order. -/
theorem parseEnumData_spec (bh : BTFHeader) (th : BTFTypeHeader)
    (r : FileReader) :
    ((th.kind_flag = true ∨ th.vlen = 0 ∨
      ¬(th.size_or_type = 1 ∨ th.size_or_type = 2 ∨ th.size_or_type = 4 ∨
        th.size_or_type = 8)) →
      BTF.parseEnumData bh th r =
        .error ⟨.InvalidEnumBTFTypeEncoding, some (entryFileRange r)⟩) ∧
    (∀ opt_name r1,
      th.kind_flag = false → th.vlen ≠ 0 →
      (th.size_or_type = 1 ∨ th.size_or_type = 2 ∨ th.size_or_type = 4 ∨
        th.size_or_type = 8) →
      optNameStep bh th.name_off r = .ok (opt_name, r1) →
      ((∃ i, i < th.vlen ∧
          (∀ j, j < i → enumRecordFine bh r1 (r1.pos + 8 * j)) ∧
          readU32At r1 (r1.pos + 8 * i) = some 0) →
        BTF.parseEnumData bh th r =
          .error ⟨.InvalidEnumBTFTypeEncoding, some (entryFileRange r)⟩) ∧
      ((∀ i, i < th.vlen → enumRecordFine bh r1 (r1.pos + 8 * i)) →
        ∃ vs r2,
          BTF.parseEnumData bh th r = .ok (.enum ⟨opt_name, vs⟩, r2) ∧
          vs.length = th.vlen ∧
          ∀ i, i < th.vlen → ∃ w s v,
            readU32At r1 (r1.pos + 8 * i) = some w ∧ w ≠ 0 ∧
            cstringAt r1.data (bh.hdr_len + bh.str_off + w) = some s ∧
            readU32At r1 (r1.pos + 8 * i + 4) = some v ∧
            vs[i]? = some ⟨s, toInt32 v⟩)) := by
  constructor
  · rintro (h | h | h)
    · simp only [BTF.parseEnumData]
      rw [if_pos (Or.inl h)]
    · simp only [BTF.parseEnumData]
      rw [if_pos (Or.inr h)]
    · by_cases hc : th.kind_flag = true ∨ th.vlen = 0
      · simp only [BTF.parseEnumData]
        rw [if_pos hc]
      · simp only [BTF.parseEnumData]
        rw [if_neg hc, if_pos h]
  · intro opt_name r1 hkf hvl hsz hns
    have hred : ∀ x, enumReadValues bh (entryFileRange r) th.vlen r1 = x →
        BTF.parseEnumData bh th r = (match x with
          | .error e => .error e
          | .ok (value_list, r2) =>
            .ok (.enum ⟨opt_name, value_list⟩, r2)) := by
      intro x hx
      simp only [BTF.parseEnumData, hkf]
      rw [if_neg (by simp [hvl]), if_neg (not_not_intro hsz), hns]
      simp only []
      rw [hx]
    constructor
    · intro hzero
      have hz := @enumReadValues_zero_record bh (entryFileRange r) th.vlen r1 hzero
      rw [hred _ hz]
    · intro hfine
      obtain ⟨vs, r2, hrun, hlen, hchar⟩ :=
        @enumReadValues_success bh (entryFileRange r) th.vlen r1 hfine
      exact ⟨vs, r2, by rw [hred _ hrun], hlen, hchar⟩

theorem parseEnumData_spec_witness :
    ∃ vs r2,
      BTF.parseEnumData {}
          { name_off := 0, vlen := 1, kind := BTFKind_Enum, kind_flag := false,
            size_or_type := 4 }
          ⟨[9, 0, 0, 0, 5, 0, 0, 0, 0, 66, 0], 0, true⟩ =
        .ok (.enum ⟨none, vs⟩, r2) ∧
      vs.length =
        ({ name_off := 0, vlen := 1, kind := BTFKind_Enum, kind_flag := false, size_or_type := 4 } : BTFTypeHeader).vlen ∧
      ∀ i, i < ({ name_off := 0, vlen := 1, kind := BTFKind_Enum, kind_flag := false, size_or_type := 4 } : BTFTypeHeader).vlen →
        ∃ w s v,
          readU32At ⟨[9, 0, 0, 0, 5, 0, 0, 0, 0, 66, 0], 0, true⟩
            ((⟨[9, 0, 0, 0, 5, 0, 0, 0, 0, 66, 0], 0, true⟩ : FileReader).pos +
              8 * i) = some w ∧
          w ≠ 0 ∧
          cstringAt
            (⟨[9, 0, 0, 0, 5, 0, 0, 0, 0, 66, 0], 0, true⟩ : FileReader).data
            (({} : BTFHeader).hdr_len + ({} : BTFHeader).str_off + w) =
            some s ∧
          readU32At ⟨[9, 0, 0, 0, 5, 0, 0, 0, 0, 66, 0], 0, true⟩
            ((⟨[9, 0, 0, 0, 5, 0, 0, 0, 0, 66, 0], 0, true⟩ : FileReader).pos +
              8 * i + 4) = some v ∧
          vs[i]? = some ⟨s, toInt32 v⟩ := by
  refine ((parseEnumData_spec {}
      { name_off := 0, vlen := 1, kind := BTFKind_Enum, kind_flag := false,
        size_or_type := 4 }
      ⟨[9, 0, 0, 0, 5, 0, 0, 0, 0, 66, 0], 0, true⟩).2 none
      ⟨[9, 0, 0, 0, 5, 0, 0, 0, 0, 66, 0], 0, true⟩
      rfl (by decide) (by decide) (by decide)).2 ?_
  intro i hi
  have hi1 : i < 1 := hi
  have hi0 : i = 0 := by omega
  subst hi0
  exact ⟨9, by decide, by decide, ⟨[66], by decide⟩, ⟨5, by decide⟩⟩

end btfparse
